import Mathlib

/-!
Verification development for the `pdf-problem-solver` web application
(`web-app/app_async.py`, the asynchronous job pipeline, and
`web-app/app.py`, the legacy synchronous handler).

Python strings are embedded as `List Char` (`Pstr`), wall-clock times as `ℚ`,
process exit codes as `Int`.  Each Python function of interest is translated
into an executable Lean definition; the background worker
`process_pdf_async` is modelled as a function from its arguments plus an
oracle of external outcomes (exit codes, which convention-derived output
files the external tools produced, which library calls raise) to the list of
observable events it performs (job-record writes, tool invocations, file
removals, the final move, notification sends).
-/

/-- Coerce a Lean string literal to the `List Char` representation used for
Python strings throughout this development. -/
def str (s : String) : List Char := s.data

/-- Python strings (also used for filesystem paths). -/
abbrev Pstr := List Char

/-- One step of Python's `str.replace(pat, rep)` (replace every
non-overlapping occurrence, scanning left to right), written with explicit
fuel so that it is structural recursion and evaluates inside the kernel.
With `fuel ≥ s.length` the fuel never runs out (each recursive call drops at
least one character). -/
def replAux (pat rep : List Char) : Nat → List Char → List Char
  | 0, s => s
  | _ + 1, [] => []
  | n + 1, c :: s =>
    if pat ≠ [] ∧ pat.isPrefixOf (c :: s)
    then rep ++ replAux pat rep n ((c :: s).drop pat.length)
    else c :: replAux pat rep n s

/-- Python's `s.replace(pat, rep)`. -/
def pyReplace (s pat rep : List Char) : List Char := replAux pat rep s.length s

/-- Replacing with a pattern no shorter than the replacement never shrinks
the string. -/
theorem replAux_length_ge (pat rep : List Char) (hlen : pat.length ≤ rep.length) :
    ∀ (n : Nat) (s : List Char), s.length ≤ n → s.length ≤ (replAux pat rep n s).length := by
  intro n
  induction n with
  | zero => intro s h; simp [replAux]
  | succ n ih =>
    intro s h
    match s with
    | [] => simp [replAux]
    | c :: t =>
      rw [replAux]
      split
      · rename_i hc
        have hp : 0 < pat.length := List.length_pos.mpr hc.1
        have hple : pat.length ≤ (c :: t).length :=
          (List.isPrefixOf_iff_prefix.mp hc.2).length_le
        have hrec := ih ((c :: t).drop pat.length)
          (by simp only [List.length_drop]; simp only [List.length_cons] at h ⊢; omega)
        simp only [List.length_append, List.length_drop] at hrec ⊢
        omega
      · have hrec := ih t (by simp only [List.length_cons] at h; omega)
        simp only [List.length_cons] at h ⊢
        omega

/-- If the pattern occurs in the string and the replacement is strictly
longer than the pattern, replacing strictly grows the string. -/
theorem replAux_length_gt (pat rep : List Char) (hlen : pat.length < rep.length) :
    ∀ (n : Nat) (s : List Char), s.length ≤ n → pat ≠ [] → pat <:+: s →
      s.length < (replAux pat rep n s).length := by
  intro n
  induction n with
  | zero =>
    intro s h hne hocc
    have hs : s = [] := List.length_eq_zero.mp (Nat.le_zero.mp h)
    subst hs
    rcases hocc with ⟨u, v, huv⟩
    have hl := congrArg List.length huv
    simp only [List.length_append, List.length_nil] at hl
    exact absurd (List.length_eq_zero.mp (by omega)) hne
  | succ n ih =>
    intro s h hne hocc
    match s with
    | [] =>
      rcases hocc with ⟨u, v, huv⟩
      have hl := congrArg List.length huv
      simp only [List.length_append, List.length_nil] at hl
      exact absurd (List.length_eq_zero.mp (by omega)) hne
    | c :: t =>
      rw [replAux]
      split
      · rename_i hc
        have hp : 0 < pat.length := List.length_pos.mpr hc.1
        have hple : pat.length ≤ (c :: t).length :=
          (List.isPrefixOf_iff_prefix.mp hc.2).length_le
        have hrec := replAux_length_ge pat rep (Nat.le_of_lt hlen) n ((c :: t).drop pat.length)
          (by simp only [List.length_drop]; simp only [List.length_cons] at h ⊢; omega)
        simp only [List.length_append, List.length_drop] at hrec ⊢
        omega
      · rename_i hc
        -- the head is not a match site, so the occurrence lies in the tail
        have hocc' : pat <:+: t := by
          rcases hocc with ⟨u, v, huv⟩
          match u with
          | [] =>
            exfalso
            apply hc
            refine ⟨hne, ?_⟩
            exact List.isPrefixOf_iff_prefix.mpr ⟨v, by simpa using huv⟩
          | a :: u' =>
            have h2 := huv
            simp only [List.cons_append] at h2
            injection h2 with _ h2b
            exact ⟨u', v, h2b⟩
        have hrec := ih t (by simp only [List.length_cons] at h; omega) hne hocc'
        simp only [List.length_cons]
        omega

theorem pyReplace_length_ge (s pat rep : List Char) (hlen : pat.length ≤ rep.length) :
    s.length ≤ (pyReplace s pat rep).length :=
  replAux_length_ge pat rep hlen s.length s le_rfl

theorem pyReplace_length_gt (s pat rep : List Char) (hlen : pat.length < rep.length)
    (hne : pat ≠ []) (hocc : pat <:+: s) : s.length < (pyReplace s pat rep).length :=
  replAux_length_gt pat rep hlen s.length s le_rfl hne hocc

example : pyReplace (str "a.pdf") (str ".pdf") (str "-OCR.pdf") = str "a-OCR.pdf" := by decide

example : pyReplace (str "a.pdfb.pdf") (str ".pdf") (str "-unlocked.pdf")
    = str "a-unlocked.pdfb-unlocked.pdf" := by decide

/-! ## Constants (app_async.py lines 34-45) -/

def MAX_FILE_SIZE : Nat := 100 * 1024 * 1024
def MAX_FILENAME_LENGTH : Nat := 255
def MAX_UPLOADS_PER_IP : Nat := 5
def RATE_LIMIT_WINDOW : ℚ := 3600

/-! ## Rate limiter (app_async.py lines 91-110)

The Python dict `upload_attempts` (identity → list of attempt timestamps) is
embedded as an insertion-ordered association list; `float` timestamps are
embedded as `ℚ`. -/

abbrev RL := List (Pstr × List ℚ)

/-- `upload_attempts[ip]`, with `[]` for a missing key. -/
def lookupRL : RL → Pstr → List ℚ
  | [], _ => []
  | e :: rest, ip => if e.1 = ip then e.2 else lookupRL rest ip

/-- Python dict assignment `upload_attempts[ip] = v` (replaces in place, or
appends a new key in insertion order). -/
def setRL (st : RL) (ip : Pstr) (v : List ℚ) : RL :=
  if st.any (fun e => decide (e.1 = ip))
  then st.map (fun e => if e.1 = ip then (ip, v) else e)
  else st ++ [(ip, v)]

/-- The "Clean old entries" loop (lines 96-100): for every identity, drop
timestamps with `current_time - t >= RATE_LIMIT_WINDOW`, then `del` the
identities whose list became empty. -/
def pruneRL (st : RL) (now : ℚ) : RL :=
  (st.map (fun e => (e.1, e.2.filter (fun t => decide (now - t < RATE_LIMIT_WINDOW))))).filter
    (fun e => !e.2.isEmpty)

/-- `check_rate_limit(ip_address)` at wall-clock time `now`, acting on state
`st`: prune all entries, then deny if the identity already has
`MAX_UPLOADS_PER_IP` fresh timestamps (recording nothing), else record `now`
and admit.  (The `if ip_address not in upload_attempts` re-insertion of an
empty list only matters on the admit path, where it is subsumed by the
append.) -/
def check_rate_limit (st : RL) (now : ℚ) (ip : Pstr) : Bool × RL :=
  let st1 := pruneRL st now
  let cur := lookupRL st1 ip
  if MAX_UPLOADS_PER_IP ≤ cur.length then (false, st1)
  else (true, setRL st1 ip (cur ++ [now]))

/-- A sequence of `check_rate_limit` calls `(time, identity)`, returning the
list of admission results and the final state. -/
def runRL (st : RL) : List (ℚ × Pstr) → List Bool × RL
  | [] => ([], st)
  | (t, ip) :: rest =>
    let r := check_rate_limit st t ip
    let rr := runRL r.2 rest
    (r.1 :: rr.1, rr.2)

/-- The timestamps of the calls with identity `ip` that were admitted
(`true` result), in call order. -/
def admittedTimes (calls : List (ℚ × Pstr)) (res : List Bool) (ip : Pstr) : List ℚ :=
  (calls.zip res).filterMap
    (fun x => if x.1.2 = ip ∧ x.2 = true then some x.1.1 else none)

/-- Spacing property: in the list `l` of admitted timestamps, any two entries
at least `MAX_UPLOADS_PER_IP` positions apart differ by at least the window.
This is exactly what bounds every trailing window to `MAX_UPLOADS_PER_IP`
admissions. -/
def WSpaced (l : List ℚ) : Prop :=
  ∀ pre mid suf (x y : ℚ), l = pre ++ x :: mid ++ y :: suf →
    MAX_UPLOADS_PER_IP - 1 ≤ mid.length → RATE_LIMIT_WINDOW ≤ y - x

/-- Keys of the attempts dict are distinct (true of any Python dict). -/
def KeysOK (st : RL) : Prop := (st.map Prod.fst).Nodup

theorem lookupRL_eq_nil_of_not_mem {st : RL} {ip : Pstr}
    (h : ip ∉ st.map Prod.fst) : lookupRL st ip = [] := by
  induction st with
  | nil => rfl
  | cons e rest ih =>
    simp only [List.map_cons, List.mem_cons, not_or] at h
    rw [lookupRL, if_neg (fun hc => h.1 hc.symm)]
    exact ih h.2

theorem keys_pruneRL_sublist (st : RL) (now : ℚ) :
    List.Sublist ((pruneRL st now).map Prod.fst) (st.map Prod.fst) := by
  rw [pruneRL]
  have h1 : List.Sublist
      ((st.map (fun e => (e.1, e.2.filter (fun t => decide (now - t < RATE_LIMIT_WINDOW))))).filter
        (fun e => !e.2.isEmpty))
      (st.map (fun e => (e.1, e.2.filter (fun t => decide (now - t < RATE_LIMIT_WINDOW))))) :=
    List.filter_sublist _
  have h2 := h1.map Prod.fst
  rw [List.map_map] at h2
  have h3 : (Prod.fst ∘ fun e : Pstr × List ℚ =>
      (e.1, e.2.filter (fun t => decide (now - t < RATE_LIMIT_WINDOW)))) = Prod.fst := by
    funext e; rfl
  rwa [h3] at h2

theorem keysOK_pruneRL {st : RL} (h : KeysOK st) (now : ℚ) : KeysOK (pruneRL st now) :=
  List.Nodup.sublist (keys_pruneRL_sublist st now) h

/-- Pruning commutes with per-identity lookup (needs distinct keys: `del` of
an entry must not expose a duplicate). -/
theorem lookupRL_pruneRL {st : RL} (h : KeysOK st) (now : ℚ) (ip : Pstr) :
    lookupRL (pruneRL st now) ip
      = (lookupRL st ip).filter (fun t => decide (now - t < RATE_LIMIT_WINDOW)) := by
  induction st with
  | nil => rfl
  | cons e rest ih =>
    simp only [KeysOK, List.map_cons, List.nodup_cons] at h
    have hkey : e.1 ∉ rest.map Prod.fst := h.1
    have ihr := ih h.2
    by_cases hip : e.1 = ip
    · subst hip
      rw [pruneRL, List.map_cons, List.filter_cons]
      by_cases hemp : (e.2.filter (fun t => decide (now - t < RATE_LIMIT_WINDOW))).isEmpty
      · -- the pruned entry became empty and is deleted; its key is not in the tail
        simp only [hemp, Bool.not_true]
        rw [if_neg (by simp)]
        rw [show lookupRL (e :: rest) e.1 = e.2 by rw [lookupRL, if_pos rfl]]
        have hnk : e.1 ∉ (pruneRL rest now).map Prod.fst :=
          fun hc => hkey ((keys_pruneRL_sublist rest now).mem hc)
        rw [pruneRL] at hnk
        rw [lookupRL_eq_nil_of_not_mem hnk]
        exact (List.isEmpty_iff.mp hemp).symm
      · simp only [hemp, Bool.not_false, if_true]
        rw [lookupRL, if_pos rfl]
        rw [show lookupRL (e :: rest) e.1 = e.2 by rw [lookupRL, if_pos rfl]]
    · rw [pruneRL, List.map_cons, List.filter_cons]
      rw [show lookupRL (e :: rest) ip = lookupRL rest ip by rw [lookupRL, if_neg hip]]
      by_cases hemp : (e.2.filter (fun t => decide (now - t < RATE_LIMIT_WINDOW))).isEmpty
      · simp only [hemp, Bool.not_true]
        rw [if_neg (by simp)]
        rw [pruneRL] at ihr
        exact ihr
      · simp only [hemp, Bool.not_false, if_true]
        rw [lookupRL, if_neg hip]
        rw [pruneRL] at ihr
        exact ihr

theorem lookupRL_map_set (ip : Pstr) (v : List ℚ) :
    ∀ st : RL, st.any (fun e => decide (e.1 = ip)) = true →
      lookupRL (st.map (fun e => if e.1 = ip then (ip, v) else e)) ip = v := by
  intro st
  induction st with
  | nil => intro hany; simp at hany
  | cons e rest ih =>
    intro hany
    rw [List.map_cons]
    by_cases hip : e.1 = ip
    · rw [if_pos hip, lookupRL, if_pos rfl]
    · rw [if_neg hip, lookupRL, if_neg hip]
      apply ih
      simp only [List.any_cons, Bool.or_eq_true, decide_eq_true_eq] at hany
      rcases hany with hc | hrest
      · exact absurd hc hip
      · exact hrest

theorem lookupRL_append_set (ip : Pstr) (v : List ℚ) :
    ∀ st : RL, (∀ e ∈ st, e.1 ≠ ip) → lookupRL (st ++ [(ip, v)]) ip = v := by
  intro st
  induction st with
  | nil =>
    intro _
    show lookupRL ((ip, v) :: []) ip = v
    rw [lookupRL, if_pos rfl]
  | cons e rest ih =>
    intro hall
    rw [List.cons_append, lookupRL, if_neg (hall e (List.mem_cons_self e rest))]
    exact ih (fun x hx => hall x (List.mem_cons_of_mem e hx))

theorem lookupRL_setRL_self (st : RL) (ip : Pstr) (v : List ℚ) :
    lookupRL (setRL st ip v) ip = v := by
  rw [setRL]
  by_cases hany : st.any (fun e => decide (e.1 = ip))
  · rw [if_pos hany]
    exact lookupRL_map_set ip v st hany
  · rw [if_neg hany]
    apply lookupRL_append_set
    intro e he hc
    rw [List.any_eq_true] at hany
    exact hany ⟨e, he, by simp [hc]⟩

theorem lookupRL_map_set_ne {ip jp : Pstr} (v : List ℚ) (hne : jp ≠ ip) :
    ∀ st : RL, lookupRL (st.map (fun e => if e.1 = jp then (jp, v) else e)) ip
      = lookupRL st ip := by
  intro st
  induction st with
  | nil => rfl
  | cons e rest ih =>
    rw [List.map_cons]
    by_cases hjp : e.1 = jp
    · rw [if_pos hjp, lookupRL, if_neg hne, lookupRL, if_neg (hjp ▸ hne : e.1 ≠ ip)]
      exact ih
    · rw [if_neg hjp, lookupRL, lookupRL]
      by_cases hip : e.1 = ip
      · rw [if_pos hip, if_pos hip]
      · rw [if_neg hip, if_neg hip]
        exact ih

theorem lookupRL_append_ne {ip jp : Pstr} (v : List ℚ) (hne : jp ≠ ip) :
    ∀ st : RL, lookupRL (st ++ [(jp, v)]) ip = lookupRL st ip := by
  intro st
  induction st with
  | nil => simp [lookupRL, hne]
  | cons e rest ih =>
    rw [List.cons_append, lookupRL, lookupRL]
    by_cases hip : e.1 = ip
    · rw [if_pos hip, if_pos hip]
    · rw [if_neg hip, if_neg hip]
      exact ih

theorem lookupRL_setRL_ne (st : RL) {ip jp : Pstr} (v : List ℚ) (hne : jp ≠ ip) :
    lookupRL (setRL st jp v) ip = lookupRL st ip := by
  rw [setRL]
  by_cases hany : st.any (fun e => decide (e.1 = jp))
  · rw [if_pos hany]
    exact lookupRL_map_set_ne v hne st
  · rw [if_neg hany]
    exact lookupRL_append_ne v hne st

theorem keysOK_setRL {st : RL} (h : KeysOK st) (ip : Pstr) (v : List ℚ) :
    KeysOK (setRL st ip v) := by
  rw [setRL]
  by_cases hany : st.any (fun e => decide (e.1 = ip))
  · rw [if_pos hany]
    have hkeys : (st.map (fun e => if e.1 = ip then (ip, v) else e)).map Prod.fst
        = st.map Prod.fst := by
      rw [List.map_map]
      apply List.map_congr_left
      intro e _
      by_cases hip : e.1 = ip
      · simp [hip]
      · simp [hip]
    rw [KeysOK, hkeys]
    exact h
  · rw [if_neg hany]
    rw [List.any_eq_true] at hany
    push_neg at hany
    rw [KeysOK, List.map_append]
    simp only [List.map_cons, List.map_nil]
    rw [List.nodup_append]
    refine ⟨h, List.nodup_singleton ip, ?_⟩
    intro a ha hb
    simp only [List.mem_singleton] at hb
    subst hb
    rcases List.mem_map.mp ha with ⟨e, he, hfst⟩
    exact (by simpa using hany e he : e.1 ≠ a) hfst

theorem filter_window_collapse (hist : List ℚ) (tp u : ℚ) (h : tp ≤ u) :
    (hist.filter (fun s => decide (tp - s < RATE_LIMIT_WINDOW))).filter
        (fun s => decide (u - s < RATE_LIMIT_WINDOW))
      = hist.filter (fun s => decide (u - s < RATE_LIMIT_WINDOW)) := by
  rw [List.filter_filter]
  apply List.filter_congr
  intro s _
  by_cases h1 : u - s < RATE_LIMIT_WINDOW
  · have h2 : tp - s < RATE_LIMIT_WINDOW := by linarith
    simp [h1, h2]
  · simp [h1]

/-- Appending a newly admitted timestamp `u` preserves the spacing property,
because admission means fewer than `MAX_UPLOADS_PER_IP` retained timestamps
lie within the window ending at `u`. -/
theorem wspaced_snoc (hist : List ℚ) (u : ℚ) (hsp : WSpaced hist)
    (hsort : List.Pairwise (· ≤ ·) hist)
    (hcount : (hist.filter (fun s => decide (u - s < RATE_LIMIT_WINDOW))).length
      < MAX_UPLOADS_PER_IP) :
    WSpaced (hist ++ [u]) := by
  intro pre mid suf x y heq hmid
  rcases List.eq_nil_or_concat suf with hsuf | ⟨init, lastel, hsuf⟩
  · -- y is the new timestamp u
    subst hsuf
    have heq2 : hist ++ [u] = (pre ++ x :: mid) ++ [y] := by
      rw [heq]; try simp [List.append_assoc]
    have hinj := List.append_inj' heq2 (by rfl)
    have hh : hist = pre ++ x :: mid := hinj.1
    have hu : u = y := by
      have := hinj.2
      injection this
    subst hu
    by_contra hlt
    push_neg at hlt
    have hsuffix : List.IsSuffix (x :: mid) hist := ⟨pre, hh.symm⟩
    have hsub := hsuffix.sublist
    have hpw : List.Pairwise (· ≤ ·) (x :: mid) := hsort.sublist hsub
    have hxmid : ∀ m ∈ mid, x ≤ m := (List.pairwise_cons.mp hpw).1
    have hall : ∀ a ∈ (x :: mid), (fun s => decide (u - s < RATE_LIMIT_WINDOW)) a = true := by
      intro a ha
      rcases List.mem_cons.mp ha with rfl | hm
      · simp only [decide_eq_true_eq]; linarith
      · simp only [decide_eq_true_eq]
        have := hxmid a hm
        linarith
    have hfeq : (x :: mid).filter (fun s => decide (u - s < RATE_LIMIT_WINDOW)) = x :: mid :=
      List.filter_eq_self.mpr hall
    have hfsub := hsub.filter (fun s => decide (u - s < RATE_LIMIT_WINDOW))
    rw [hfeq] at hfsub
    have hlen := hfsub.length_le
    simp only [List.length_cons] at hlen
    simp only [MAX_UPLOADS_PER_IP] at hcount hmid
    omega
  · -- the decomposition lies entirely inside hist
    subst hsuf
    have heq2 : hist ++ [u] = (pre ++ x :: mid ++ y :: init) ++ [lastel] := by
      rw [heq]; try simp [List.append_assoc]
    have hinj := List.append_inj' heq2 (by rfl)
    exact hsp pre mid init x y hinj.1 hmid

theorem admittedTimes_cons (u : ℚ) (jp : Pstr) (rest : List (ℚ × Pstr)) (b : Bool)
    (res : List Bool) (ip : Pstr) :
    admittedTimes ((u, jp) :: rest) (b :: res) ip
      = (if jp = ip ∧ b = true then u :: admittedTimes rest res ip
         else admittedTimes rest res ip) := by
  simp only [admittedTimes, List.zip_cons_cons, List.filterMap_cons]
  by_cases h : jp = ip ∧ b = true
  · rw [if_pos h, if_pos h]
  · rw [if_neg h, if_neg h]

theorem runRL_cons (st : RL) (u : ℚ) (jp : Pstr) (rest : List (ℚ × Pstr)) :
    runRL st ((u, jp) :: rest)
      = ((check_rate_limit st u jp).1 :: (runRL (check_rate_limit st u jp).2 rest).1,
         (runRL (check_rate_limit st u jp).2 rest).2) := rfl

/-- Main invariant induction: running `check_rate_limit` over a sequence of
calls with nondecreasing times keeps the per-identity admitted-timestamp
sequence `W`-spaced.  `hist` is the list of already-admitted timestamps for
`ip`, `tp` the time of the previous call (every stored timestamp is `≤ tp`,
and the stored entry for `ip` is exactly the in-window suffix of `hist`). -/
theorem runRL_wspaced (ip : Pstr) :
    ∀ (calls : List (ℚ × Pstr)) (st : RL) (hist : List ℚ) (tp : ℚ),
      KeysOK st →
      List.Chain' (· ≤ ·) (tp :: calls.map Prod.fst) →
      lookupRL st ip = hist.filter (fun s => decide (tp - s < RATE_LIMIT_WINDOW)) →
      List.Pairwise (· ≤ ·) hist →
      (∀ s ∈ hist, s ≤ tp) →
      WSpaced hist →
      WSpaced (hist ++ admittedTimes calls (runRL st calls).1 ip) := by
  intro calls
  induction calls with
  | nil =>
    intro st hist tp _ _ _ _ _ hsp
    simp only [runRL, admittedTimes, List.zip_nil_left, List.filterMap_nil, List.append_nil]
    exact hsp
  | cons call rest ih =>
    obtain ⟨u, jp⟩ := call
    intro st hist tp hK hchain hlook hsort hle hsp
    rw [List.map_cons, List.chain'_cons] at hchain
    obtain ⟨htpu, hchain'⟩ := hchain
    have hK1 : KeysOK (pruneRL st u) := keysOK_pruneRL hK u
    have hlook1 : lookupRL (pruneRL st u) ip
        = hist.filter (fun s => decide (u - s < RATE_LIMIT_WINDOW)) := by
      rw [lookupRL_pruneRL hK u ip, hlook, filter_window_collapse hist tp u htpu]
    have hleu : ∀ s ∈ hist, s ≤ u := fun s hs => le_trans (hle s hs) htpu
    rw [runRL_cons]
    by_cases hjp : jp = ip
    · subst hjp
      by_cases hd : MAX_UPLOADS_PER_IP ≤ (lookupRL (pruneRL st u) jp).length
      · -- denied: nothing recorded, the new state is just the pruned state
        have hck : check_rate_limit st u jp = (false, pruneRL st u) := by
          rw [check_rate_limit]
          simp only [hd, if_pos]
        rw [hck]
        rw [admittedTimes_cons, if_neg (by simp)]
        exact ih (pruneRL st u) hist u hK1 hchain' hlook1 hsort hleu hsp
      · -- admitted: the current time is appended for this identity
        have hck : check_rate_limit st u jp
            = (true, setRL (pruneRL st u) jp (lookupRL (pruneRL st u) jp ++ [u])) := by
          rw [check_rate_limit]
          simp only [hd, if_neg, if_false]
        rw [hck]
        rw [admittedTimes_cons, if_pos (by simp)]
        have hgoal : hist ++ u :: admittedTimes rest (runRL
              (setRL (pruneRL st u) jp (lookupRL (pruneRL st u) jp ++ [u])) rest).1 jp
            = (hist ++ [u]) ++ admittedTimes rest (runRL
              (setRL (pruneRL st u) jp (lookupRL (pruneRL st u) jp ++ [u])) rest).1 jp := by
          simp [List.append_assoc]
        rw [hgoal]
        have hcount : (hist.filter (fun s => decide (u - s < RATE_LIMIT_WINDOW))).length
            < MAX_UPLOADS_PER_IP := by
          rw [← hlook1]
          omega
        apply ih _ (hist ++ [u]) u (keysOK_setRL hK1 jp _) hchain'
        · -- lookup of the updated entry is the in-window suffix of hist ++ [u]
          rw [lookupRL_setRL_self, hlook1, List.filter_append]
          have hu : ([u].filter (fun s => decide (u - s < RATE_LIMIT_WINDOW))) = [u] := by
            simp only [List.filter_cons, List.filter_nil]
            rw [if_pos (by simp only [sub_self, decide_eq_true_eq]; norm_num [RATE_LIMIT_WINDOW])]
          rw [hu]
        · rw [List.pairwise_append]
          exact ⟨hsort, List.pairwise_singleton _ _,
            fun a ha b hb => by rw [List.mem_singleton] at hb; subst hb; exact hleu a ha⟩
        · intro s hs
          rcases List.mem_append.mp hs with h1 | h1
          · exact hleu s h1
          · rw [List.mem_singleton] at h1; exact h1.le
        · exact wspaced_snoc hist u hsp hsort hcount
    · -- a call for a different identity never touches ip's entry
      by_cases hd : MAX_UPLOADS_PER_IP ≤ (lookupRL (pruneRL st u) jp).length
      · have hck : check_rate_limit st u jp = (false, pruneRL st u) := by
          rw [check_rate_limit]
          simp only [hd, if_pos]
        rw [hck]
        rw [admittedTimes_cons, if_neg (by simp [hjp])]
        exact ih (pruneRL st u) hist u hK1 hchain' hlook1 hsort hleu hsp
      · have hck : check_rate_limit st u jp
            = (true, setRL (pruneRL st u) jp (lookupRL (pruneRL st u) jp ++ [u])) := by
          rw [check_rate_limit]
          simp only [hd, if_neg, if_false]
        rw [hck]
        rw [admittedTimes_cons, if_neg (by simp [hjp])]
        apply ih _ hist u (keysOK_setRL hK1 jp _) hchain' _ hsort hleu hsp
        rw [lookupRL_setRL_ne _ _ hjp]
        exact hlook1

theorem wspaced_nil : WSpaced [] := by
  intro pre mid suf x y heq _
  exfalso
  have := congrArg List.length heq
  simp [List.length_append] at this
  omega

/-- From the empty initial state (`upload_attempts = {}`), any call sequence
with nondecreasing times yields a `W`-spaced admission sequence per identity. -/
theorem runRL_wspaced_of_empty (ip : Pstr) (calls : List (ℚ × Pstr))
    (hmono : List.Chain' (· ≤ ·) (calls.map Prod.fst)) :
    WSpaced (admittedTimes calls (runRL [] calls).1 ip) := by
  match calls with
  | [] =>
    simp only [runRL, admittedTimes, List.zip_nil_left, List.filterMap_nil]
    exact wspaced_nil
  | (u, jp) :: rest =>
    have h := runRL_wspaced ip ((u, jp) :: rest) [] [] u (by simp [KeysOK])
      (by
        rw [List.map_cons] at hmono ⊢
        exact List.chain'_cons.mpr ⟨le_refl u, hmono⟩)
      rfl (List.Pairwise.nil) (by simp) wspaced_nil
    simpa using h

theorem sublist_cons_split {α : Type} {a : α} {l r : List α}
    (h : List.Sublist (a :: l) r) : ∃ r₁ r₂, r = r₁ ++ a :: r₂ ∧ List.Sublist l r₂ := by
  induction r generalizing a l with
  | nil => exact absurd h (by simp)
  | cons b r' ih =>
    cases h with
    | cons _ h' =>
      obtain ⟨r₁, r₂, heq, hsub⟩ := ih h'
      exact ⟨b :: r₁, r₂, by rw [heq, List.cons_append], hsub⟩
    | cons₂ _ h' =>
      exact ⟨[], r', rfl, h'⟩

theorem sublist_mid_split {α : Type} {x y : α} {m tl A : List α}
    (h : List.Sublist (x :: (m ++ y :: tl)) A) :
    ∃ pre mid suf, A = pre ++ x :: mid ++ y :: suf ∧ m.length ≤ mid.length := by
  obtain ⟨r₁, r₂, hA, hsub⟩ := sublist_cons_split h
  obtain ⟨s₁, s₂, hr₂, hm, hy⟩ := List.append_sublist_iff.mp hsub
  obtain ⟨t₁, t₂, hs₂, hty⟩ := sublist_cons_split hy
  refine ⟨r₁, s₁ ++ t₁, t₂, ?_, ?_⟩
  · rw [hA, hr₂, hs₂]
    simp [List.append_assoc]
  · have := hm.length_le
    simp only [List.length_append]
    omega

/-- In a `W`-spaced list, any trailing window of duration `W` holds at most
`MAX_UPLOADS_PER_IP` entries. -/
theorem wspaced_window_count (A : List ℚ) (hsp : WSpaced A) (T : ℚ) :
    (A.filter (fun s => decide (T - s < RATE_LIMIT_WINDOW) && decide (s ≤ T))).length
      ≤ MAX_UPLOADS_PER_IP := by
  by_contra hlen
  push_neg at hlen
  set p := fun s : ℚ => decide (T - s < RATE_LIMIT_WINDOW) && decide (s ≤ T) with hp
  have h6 : MAX_UPLOADS_PER_IP + 1 ≤ (A.filter p).length := hlen
  simp only [MAX_UPLOADS_PER_IP] at h6
  -- extract the 1st and 6th filtered elements
  match hF : A.filter p with
  | [] => rw [hF] at h6; simp at h6
  | [_] => rw [hF] at h6; simp at h6
  | [_, _] => rw [hF] at h6; simp at h6
  | [_, _, _] => rw [hF] at h6; simp at h6
  | [_, _, _, _] => rw [hF] at h6; simp at h6
  | [_, _, _, _, _] => rw [hF] at h6; simp at h6
  | x :: b :: c :: d :: e :: y :: tl =>
    have hxF : x ∈ A.filter p := by rw [hF]; exact List.mem_cons_self _ _
    have hyF : y ∈ A.filter p := by rw [hF]; simp
    have hxp : p x = true := List.of_mem_filter hxF
    have hyp : p y = true := List.of_mem_filter hyF
    simp only [hp, Bool.and_eq_true, decide_eq_true_eq] at hxp hyp
    have hsubF : List.Sublist (x :: ([b, c, d, e] ++ y :: tl)) A := by
      have := List.filter_sublist (l := A) (p := p)
      rw [hF] at this
      simpa using this
    obtain ⟨pre, mid, suf, hdecomp, hmidlen⟩ := sublist_mid_split hsubF
    have hW := hsp pre mid suf x y hdecomp (by simpa [MAX_UPLOADS_PER_IP] using hmidlen)
    rw [RATE_LIMIT_WINDOW] at hW
    obtain ⟨hx1, hx2⟩ := hxp
    obtain ⟨hy1, hy2⟩ := hyp
    rw [RATE_LIMIT_WINDOW] at hx1 hy1
    linarith

/-- C2: For every submitter identity and every trailing window of
`RATE_LIMIT_WINDOW` duration, `check_rate_limit` (run from the empty initial
state over any sequence of calls with nondecreasing wall-clock times) returns
`true` for at most `MAX_UPLOADS_PER_IP` calls with that identity whose times
lie in the window; and on any call where the pruned count for the identity
has reached `MAX_UPLOADS_PER_IP` it returns `false` with the state exactly
the pruned state (no timestamp recorded, so a denied attempt does not extend
the window). -/
theorem check_rate_limit_sliding_window (calls : List (ℚ × Pstr)) (ip : Pstr)
    (hmono : List.Chain' (· ≤ ·) (calls.map Prod.fst)) :
    (∀ T : ℚ,
      ((admittedTimes calls (runRL [] calls).1 ip).filter
        (fun s => decide (T - s < RATE_LIMIT_WINDOW) && decide (s ≤ T))).length
        ≤ MAX_UPLOADS_PER_IP)
    ∧ (∀ (st : RL) (now : ℚ),
        MAX_UPLOADS_PER_IP ≤ (lookupRL (pruneRL st now) ip).length →
        check_rate_limit st now ip = (false, pruneRL st now)) := by
  constructor
  · intro T
    exact wspaced_window_count _ (runRL_wspaced_of_empty ip calls hmono) T
  · intro st now hd
    rw [check_rate_limit]
    simp only [hd, if_pos]

theorem check_rate_limit_sliding_window_witness :
    List.Chain' (· ≤ ·) (([((0 : ℚ), str "1.2.3.4"), (1, str "1.2.3.4"), (2, str "1.2.3.4"),
        (3, str "1.2.3.4"), (4, str "1.2.3.4"), (5, str "1.2.3.4"),
        (6, str "9.9.9.9")] : List (ℚ × Pstr)).map Prod.fst)
    ∧ ((∀ T : ℚ,
      ((admittedTimes [((0 : ℚ), str "1.2.3.4"), (1, str "1.2.3.4"), (2, str "1.2.3.4"),
          (3, str "1.2.3.4"), (4, str "1.2.3.4"), (5, str "1.2.3.4"), (6, str "9.9.9.9")]
        (runRL [] [((0 : ℚ), str "1.2.3.4"), (1, str "1.2.3.4"), (2, str "1.2.3.4"),
          (3, str "1.2.3.4"), (4, str "1.2.3.4"), (5, str "1.2.3.4"), (6, str "9.9.9.9")]).1
        (str "1.2.3.4")).filter
        (fun s => decide (T - s < RATE_LIMIT_WINDOW) && decide (s ≤ T))).length
        ≤ MAX_UPLOADS_PER_IP)
    ∧ (∀ (st : RL) (now : ℚ),
        MAX_UPLOADS_PER_IP ≤ (lookupRL (pruneRL st now) (str "1.2.3.4")).length →
        check_rate_limit st now (str "1.2.3.4") = (false, pruneRL st now))) :=
  ⟨by norm_num [List.chain'_cons],
   check_rate_limit_sliding_window _ (str "1.2.3.4") (by norm_num [List.chain'_cons])⟩

/-! ## Job state and executor events (app_async.py lines 131-301)

The background worker `process_pdf_async` is modelled as a function from its
arguments (`Cfg`, mirroring the Python parameters) and an oracle of external
outcomes (`Orc`) to the list of observable events it performs, in order.
Events record every write to the job record `processing_jobs[job_id]`, every
external tool invocation, every `os.remove`, the final `shutil.move`, and
each `send_email` call. -/

/-- `job['status']` values. -/
inductive JStat
  | queued
  | processing
  | completed
  | failed
deriving DecidableEq, Repr

/-- The five external tools of the pipeline. -/
inductive StepName
  | unlock      -- additional-tools/unlock-pdf.sh
  | fixfonts    -- fix-pdf-fonts-interactive.sh (mandatory normalization)
  | ocr         -- additional-tools/ocr-and-index.sh
  | pagenums    -- additional-tools/add-page-numbers.sh
  | compresspdf -- additional-tools/compress-pdf.sh
deriving DecidableEq, Repr

/-- Observable executor events. -/
inductive Ev
  | wstatus (s : JStat)               -- processing_jobs[job_id]['status'] = s
  | wprogress (p : Pstr)              -- processing_jobs[job_id]['progress'] = p
  | werror (m : Pstr)                 -- processing_jobs[job_id]['error'] = m
  | wcompletedAt                      -- processing_jobs[job_id]['completed_at'] = ...
  | woutputPath (p : Pstr)            -- processing_jobs[job_id]['output_path'] = p
  | runStep (n : StepName) (args : List Pstr)  -- subprocess invocation
  | rmFile (p : Pstr)                 -- os.remove(p)
  | moveFile (src dst : Pstr)         -- shutil.move(src, dst)
  | sendEmail (ok : Bool)             -- send_email(...) (ok: success template)
deriving DecidableEq, Repr

/-- The arguments of `process_pdf_async` (line 131-132). -/
structure Cfg where
  input_path : Pstr
  output_path : Pstr
  email : Pstr
  pages_mode : Pstr
  custom_pages : Pstr
  dpi : Pstr
  do_ocr : Bool
  add_page_numbers : Bool
  compress : Bool
  remove_security : Bool
deriving DecidableEq, Repr

/-- Oracle for one executor run: which files exist when the code tests
`os.path.exists`, the mandatory script's exit status and stderr, which of the
external calls raise an unexpected exception (with message `excMsg`), and
whether the input file is still on disk at the `finally` block absent the
worker's own removal. -/
structure Orc where
  ex : Pstr → Bool
  unlockRaises : Bool
  fixRaises : Bool
  fixRc : Int
  fixStderr : Pstr
  ocrRaises : Bool
  pagenumsRaises : Bool
  compressRaises : Bool
  moveRaises : Bool
  excMsg : Pstr
  inputOnDisk : Bool

/-- Convention-derived output names (`current_file.replace('.pdf', ...)`). -/
def unlockedName (p : Pstr) : Pstr := pyReplace p (str ".pdf") (str "-unlocked.pdf")
def fixedName (p : Pstr) : Pstr := pyReplace p (str ".pdf") (str "-FIXED.pdf")
def ocrName (p : Pstr) : Pstr := pyReplace p (str ".pdf") (str "-OCR.pdf")
def numberedName (p : Pstr) : Pstr := pyReplace p (str ".pdf") (str "-numbered.pdf")
def compressedName (p : Pstr) : Pstr := pyReplace p (str ".pdf") (str "-compressed.pdf")

/-- Page-selection argument (identical in both handlers):
`custom_pages.replace(',', ' ')` in custom mode, else the mode itself. -/
def pagesArg (mode cpages : Pstr) : Pstr :=
  if mode = str "custom" ∧ cpages ≠ []
  then pyReplace cpages (str ",") (str " ")
  else mode

/-- Page-selection argument of the async worker (lines 166-170). -/
def fixPagesArg (c : Cfg) : Pstr := pagesArg c.pages_mode c.custom_pages

/-- Command arguments of the mandatory script (line 164-170). -/
def fixCmdArgs (c : Cfg) (cur : Pstr) : List Pstr :=
  [cur, str "--dpi", c.dpi, str "--pages", fixPagesArg c]

/-- Running state of the executor: events so far and `current_file`. -/
structure St where
  evs : List Ev
  cur : Pstr

/-- Result of one pipeline step: continue with a new state, or leave the
`try` block (early `return`, or an exception with its message). -/
inductive StepOut
  | go (s : St)
  | stop (evs : List Ev) (exc : Option Pstr)

/-- Step 1 (lines 140-157): remove security if requested.  Non-mandatory: on
a missing `-unlocked` output the current artifact is kept. -/
def asyncStep1 (c : Cfg) (o : Orc) (s : St) : StepOut :=
  if c.remove_security then
    let evs := s.evs ++ [.wprogress (str "Removing security restrictions..."),
                         .runStep .unlock [s.cur]]
    if o.unlockRaises then .stop evs (some o.excMsg)
    else if o.ex (unlockedName s.cur) then
      .go ⟨evs ++ (if s.cur ≠ c.input_path then [.rmFile s.cur] else []),
           unlockedName s.cur⟩
    else .go ⟨evs, s.cur⟩
  else .go s

/-- Step 2 (lines 159-209): the mandatory normalization.  Fails the job on a
nonzero exit status (with stderr, or a default message) and on a missing
output artifact at both the `-FIXED` convention path and the requested
output path. -/
def asyncStep2 (c : Cfg) (o : Orc) (s : St) : StepOut :=
  let evs := s.evs ++ [.wprogress (str "Converting PDF pages to high-resolution images..."),
                       .runStep .fixfonts (fixCmdArgs c s.cur)]
  if o.fixRaises then .stop evs (some o.excMsg)
  else if o.fixRc ≠ 0 then
    let msg := if o.fixStderr ≠ [] then o.fixStderr
               else str "Script exited with code " ++ (toString o.fixRc).data
                    ++ str ". Check logs for details."
    .stop (evs ++ [.wstatus .failed, .werror msg]
           ++ (if c.email ≠ [] then [.sendEmail false] else [])) none
  else if o.ex (fixedName s.cur) then
    .go ⟨evs ++ (if s.cur ≠ c.input_path then [.rmFile s.cur] else []), fixedName s.cur⟩
  else if o.ex c.output_path then
    .go ⟨evs ++ (if s.cur ≠ c.input_path then [.rmFile s.cur] else []), c.output_path⟩
  else
    .stop (evs ++ [.wstatus .failed, .werror (str "Output file was not created")]) none

/-- Step 3 (lines 211-227): OCR if requested; non-mandatory. -/
def asyncStep3 (c : Cfg) (o : Orc) (s : St) : StepOut :=
  if c.do_ocr then
    let evs := s.evs ++ [.wprogress (str "Running OCR..."),
                         .runStep .ocr [s.cur, str "--full-ocr"]]
    if o.ocrRaises then .stop evs (some o.excMsg)
    else if o.ex (ocrName s.cur) then .go ⟨evs ++ [.rmFile s.cur], ocrName s.cur⟩
    else .go ⟨evs, s.cur⟩
  else .go s

/-- Step 4 (lines 229-245): add page numbers if requested; non-mandatory. -/
def asyncStep4 (c : Cfg) (o : Orc) (s : St) : StepOut :=
  if c.add_page_numbers then
    let evs := s.evs ++ [.wprogress (str "Adding page numbers..."),
                         .runStep .pagenums [s.cur]]
    if o.pagenumsRaises then .stop evs (some o.excMsg)
    else if o.ex (numberedName s.cur) then .go ⟨evs ++ [.rmFile s.cur], numberedName s.cur⟩
    else .go ⟨evs, s.cur⟩
  else .go s

/-- Step 5 (lines 247-263): compress if requested; non-mandatory. -/
def asyncStep5 (c : Cfg) (o : Orc) (s : St) : StepOut :=
  if c.compress then
    let evs := s.evs ++ [.wprogress (str "Compressing PDF..."),
                         .runStep .compresspdf [s.cur, str "ebook"]]
    if o.compressRaises then .stop evs (some o.excMsg)
    else if o.ex (compressedName s.cur) then .go ⟨evs ++ [.rmFile s.cur], compressedName s.cur⟩
    else .go ⟨evs, s.cur⟩
  else .go s

/-- Lines 265-282: move the final artifact to the output path, mark the job
completed, notify on success. -/
def asyncFinish (c : Cfg) (o : Orc) (s : St) : List Ev × Option Pstr :=
  let evs := s.evs ++ [.moveFile s.cur c.output_path]
  if o.moveRaises then (evs, some o.excMsg)
  else (evs ++ [.wstatus .completed, .wcompletedAt]
        ++ (if c.email ≠ [] then [.sendEmail true] else []), none)

/-- The initial two events of every run (lines 135-136). -/
def s0evs : List Ev :=
  [.wstatus .processing, .wprogress (str "Processing your PDF...")]

/-- The whole `try` block of `process_pdf_async` (lines 134-282): events plus
the escaped exception message, if any. -/
def asyncBody (c : Cfg) (o : Orc) : List Ev × Option Pstr :=
  match asyncStep1 c o ⟨s0evs, c.input_path⟩ with
  | .stop evs m => (evs, m)
  | .go s1 =>
    match asyncStep2 c o s1 with
    | .stop evs m => (evs, m)
    | .go s2 =>
      match asyncStep3 c o s2 with
      | .stop evs m => (evs, m)
      | .go s3 =>
        match asyncStep4 c o s3 with
        | .stop evs m => (evs, m)
        | .go s4 =>
          match asyncStep5 c o s4 with
          | .stop evs m => (evs, m)
          | .go s5 => asyncFinish c o s5

/-- Paths removed by `os.remove` in an event list, in order. -/
def rmPaths (evs : List Ev) : List Pstr :=
  evs.filterMap fun e => match e with | .rmFile p => some p | _ => none

/-- The `except` handler (lines 284-297): on an escaped exception, mark the
job failed, record the message, and notify if an address was given. -/
def handlerEvs (c : Cfg) (m : Option Pstr) : List Ev :=
  match m with
  | some m => [.wstatus .failed, .werror m]
              ++ (if c.email ≠ [] then [.sendEmail false] else [])
  | none => []

/-- The `try` body followed by the `except` handler. -/
def bodyPlusHandler (c : Cfg) (o : Orc) : List Ev :=
  (asyncBody c o).1 ++ handlerEvs c (asyncBody c o).2

/-- `process_pdf_async` (lines 131-301): the `try` body, then the `except`
handler if an exception escaped, then the `finally` block (remove the input
file if it still exists — i.e. is on disk and was not removed by this run). -/
def process_pdf_async (c : Cfg) (o : Orc) : List Ev :=
  bodyPlusHandler c o
  ++ (if o.inputOnDisk ∧ c.input_path ∉ rmPaths (bodyPlusHandler c o)
      then [.rmFile c.input_path] else [])

/-- The `job['status']` writes of an event list, in order. -/
def statusWrites (evs : List Ev) : List JStat :=
  evs.filterMap fun e => match e with | .wstatus s => some s | _ => none

/-- The external tools invoked, in order. -/
def stepsRun (evs : List Ev) : List StepName :=
  evs.filterMap fun e => match e with | .runStep n _ => some n | _ => none

/-- The `job['output_path']` writes (the executor performs none). -/
def outputWrites (evs : List Ev) : List Pstr :=
  evs.filterMap fun e => match e with | .woutputPath p => some p | _ => none

theorem statusWrites_append (a b : List Ev) :
    statusWrites (a ++ b) = statusWrites a ++ statusWrites b :=
  List.filterMap_append a b _

theorem stepsRun_append (a b : List Ev) :
    stepsRun (a ++ b) = stepsRun a ++ stepsRun b :=
  List.filterMap_append a b _

theorem rmPaths_append (a b : List Ev) :
    rmPaths (a ++ b) = rmPaths a ++ rmPaths b :=
  List.filterMap_append a b _

theorem outputWrites_append (a b : List Ev) :
    outputWrites (a ++ b) = outputWrites a ++ outputWrites b :=
  List.filterMap_append a b _

/-- Characterization of step 1: it never writes a status or `output_path`,
invokes only the unlock tool, removes at most the current artifact (and only
under the `current_file != input_path` guard), and either keeps the current
artifact or switches to the `-unlocked` convention output; an unexpected
exception leaves the `try` block with the oracle's message. -/
theorem asyncStep1_spec (c : Cfg) (o : Orc) (s : St) :
    (∃ t cur, asyncStep1 c o s = .go ⟨s.evs ++ t, cur⟩
      ∧ statusWrites t = [] ∧ outputWrites t = []
      ∧ (∀ n ∈ stepsRun t, n = StepName.unlock)
      ∧ (∀ p ∈ rmPaths t, p = s.cur ∧ s.cur ≠ c.input_path)
      ∧ (cur = s.cur ∨ cur = unlockedName s.cur))
    ∨ (∃ t, asyncStep1 c o s = .stop (s.evs ++ t) (some o.excMsg)
      ∧ statusWrites t = [] ∧ outputWrites t = []
      ∧ (∀ n ∈ stepsRun t, n = StepName.unlock)
      ∧ rmPaths t = []) := by
  rw [asyncStep1]
  by_cases hrs : c.remove_security
  · rw [if_pos hrs]
    by_cases hraise : o.unlockRaises
    · rw [if_pos hraise]
      right
      exact ⟨_, rfl, by simp [statusWrites], by simp [outputWrites],
        by simp [stepsRun], by simp [rmPaths]⟩
    · rw [if_neg hraise]
      by_cases hex : o.ex (unlockedName s.cur)
      · rw [if_pos hex]
        left
        by_cases hguard : s.cur ≠ c.input_path
        · rw [if_pos hguard]
          refine ⟨_, _, by rw [List.append_assoc], ?_, ?_, ?_, ?_, Or.inr rfl⟩
          · simp [statusWrites]
          · simp [outputWrites]
          · simp [stepsRun]
          · simp only [rmPaths, List.filterMap_append]
            simp [rmPaths, hguard]
        · rw [if_neg hguard]
          exact ⟨_, _, by rw [List.append_nil], by simp [statusWrites],
            by simp [outputWrites], by simp [stepsRun], by simp [rmPaths], Or.inr rfl⟩
      · rw [if_neg hex]
        left
        exact ⟨_, _, rfl, by simp [statusWrites], by simp [outputWrites],
          by simp [stepsRun], by simp [rmPaths], Or.inl rfl⟩
  · rw [if_neg hrs]
    left
    exact ⟨[], s.cur, by rw [List.append_nil], rfl, rfl, by simp [stepsRun],
      by simp [rmPaths], Or.inl rfl⟩

/-- Characterization of the mandatory step 2: on success it switches to the
`-FIXED` convention output or the requested output path (removing the
previous artifact only under the input-path guard); on a nonzero exit status
or a missing output it writes `failed` exactly once and returns; an
unexpected exception leaves the `try` block. -/
theorem asyncStep2_spec (c : Cfg) (o : Orc) (s : St) :
    (∃ t cur, asyncStep2 c o s = .go ⟨s.evs ++ t, cur⟩
      ∧ statusWrites t = [] ∧ outputWrites t = []
      ∧ (∀ n ∈ stepsRun t, n = StepName.fixfonts)
      ∧ (∀ p ∈ rmPaths t, p = s.cur ∧ s.cur ≠ c.input_path)
      ∧ (cur = fixedName s.cur ∨ cur = c.output_path))
    ∨ (∃ t, asyncStep2 c o s = .stop (s.evs ++ t) (some o.excMsg)
      ∧ statusWrites t = [] ∧ outputWrites t = []
      ∧ (∀ n ∈ stepsRun t, n = StepName.fixfonts)
      ∧ rmPaths t = [])
    ∨ (∃ t, asyncStep2 c o s = .stop (s.evs ++ t) none
      ∧ statusWrites t = [JStat.failed] ∧ outputWrites t = []
      ∧ (∀ n ∈ stepsRun t, n = StepName.fixfonts)
      ∧ rmPaths t = []) := by
  rw [asyncStep2]
  by_cases hraise : o.fixRaises
  · rw [if_pos hraise]
    right; left
    exact ⟨_, rfl, by simp [statusWrites], by simp [outputWrites],
      by simp [stepsRun], by simp [rmPaths]⟩
  · rw [if_neg hraise]
    by_cases hrc : o.fixRc ≠ 0
    · rw [if_pos hrc]
      right; right
      simp only [List.append_assoc]
      refine ⟨_, rfl, ?_, ?_, ?_, ?_⟩
      · by_cases hem : c.email ≠ []
        · rw [if_pos hem]; simp [statusWrites]
        · rw [if_neg hem]; simp [statusWrites]
      · by_cases hem : c.email ≠ []
        · rw [if_pos hem]; simp [outputWrites]
        · rw [if_neg hem]; simp [outputWrites]
      · by_cases hem : c.email ≠ []
        · rw [if_pos hem]; simp [stepsRun]
        · rw [if_neg hem]; simp [stepsRun]
      · by_cases hem : c.email ≠ []
        · rw [if_pos hem]; simp [rmPaths]
        · rw [if_neg hem]; simp [rmPaths]
    · rw [if_neg hrc]
      by_cases hex : o.ex (fixedName s.cur)
      · rw [if_pos hex]
        left
        by_cases hguard : s.cur ≠ c.input_path
        · rw [if_pos hguard]
          refine ⟨_, _, by rw [List.append_assoc], ?_, ?_, ?_, ?_, Or.inl rfl⟩
          · simp [statusWrites]
          · simp [outputWrites]
          · simp [stepsRun]
          · simp only [rmPaths, List.filterMap_append]
            simp [rmPaths, hguard]
        · rw [if_neg hguard]
          exact ⟨_, _, by rw [List.append_nil], by simp [statusWrites],
            by simp [outputWrites], by simp [stepsRun], by simp [rmPaths], Or.inl rfl⟩
      · rw [if_neg hex]
        by_cases hex2 : o.ex c.output_path
        · rw [if_pos hex2]
          left
          by_cases hguard : s.cur ≠ c.input_path
          · rw [if_pos hguard]
            refine ⟨_, _, by rw [List.append_assoc], ?_, ?_, ?_, ?_, Or.inr rfl⟩
            · simp [statusWrites]
            · simp [outputWrites]
            · simp [stepsRun]
            · simp only [rmPaths, List.filterMap_append]
              simp [rmPaths, hguard]
          · rw [if_neg hguard]
            exact ⟨_, _, by rw [List.append_nil], by simp [statusWrites],
              by simp [outputWrites], by simp [stepsRun], by simp [rmPaths], Or.inr rfl⟩
        · rw [if_neg hex2]
          right; right
          exact ⟨_, by rw [List.append_assoc], by simp [statusWrites],
            by simp [outputWrites], by simp [stepsRun], by simp [rmPaths]⟩

/-- Characterization of optional step 3: no status or `output_path`
write, only the tool invoked, unguarded removal only of the current
artifact, and the current artifact kept or replaced by the convention
output. -/
theorem asyncStep3_spec (c : Cfg) (o : Orc) (s : St) :
    (∃ t cur, asyncStep3 c o s = .go ⟨s.evs ++ t, cur⟩
      ∧ statusWrites t = [] ∧ outputWrites t = []
      ∧ (∀ n ∈ stepsRun t, n = StepName.ocr)
      ∧ (∀ p ∈ rmPaths t, p = s.cur)
      ∧ (cur = s.cur ∨ cur = ocrName s.cur))
    ∨ (∃ t, asyncStep3 c o s = .stop (s.evs ++ t) (some o.excMsg)
      ∧ statusWrites t = [] ∧ outputWrites t = []
      ∧ (∀ n ∈ stepsRun t, n = StepName.ocr)
      ∧ rmPaths t = []) := by
  rw [asyncStep3]
  by_cases hon : c.do_ocr
  · rw [if_pos hon]
    by_cases hraise : o.ocrRaises
    · rw [if_pos hraise]
      right
      exact ⟨_, rfl, by simp [statusWrites], by simp [outputWrites],
        by simp [stepsRun], by simp [rmPaths]⟩
    · rw [if_neg hraise]
      by_cases hex : o.ex (ocrName s.cur)
      · rw [if_pos hex]
        left
        exact ⟨_, _, by rw [List.append_assoc], by simp [statusWrites],
          by simp [outputWrites], by simp [stepsRun], by simp [rmPaths], Or.inr rfl⟩
      · rw [if_neg hex]
        left
        exact ⟨_, _, rfl, by simp [statusWrites], by simp [outputWrites],
          by simp [stepsRun], by simp [rmPaths], Or.inl rfl⟩
  · rw [if_neg hon]
    left
    exact ⟨[], s.cur, by rw [List.append_nil], rfl, rfl, by simp [stepsRun],
      by simp [rmPaths], Or.inl rfl⟩

/-- Characterization of optional step 4: no status or `output_path`
write, only the tool invoked, unguarded removal only of the current
artifact, and the current artifact kept or replaced by the convention
output. -/
theorem asyncStep4_spec (c : Cfg) (o : Orc) (s : St) :
    (∃ t cur, asyncStep4 c o s = .go ⟨s.evs ++ t, cur⟩
      ∧ statusWrites t = [] ∧ outputWrites t = []
      ∧ (∀ n ∈ stepsRun t, n = StepName.pagenums)
      ∧ (∀ p ∈ rmPaths t, p = s.cur)
      ∧ (cur = s.cur ∨ cur = numberedName s.cur))
    ∨ (∃ t, asyncStep4 c o s = .stop (s.evs ++ t) (some o.excMsg)
      ∧ statusWrites t = [] ∧ outputWrites t = []
      ∧ (∀ n ∈ stepsRun t, n = StepName.pagenums)
      ∧ rmPaths t = []) := by
  rw [asyncStep4]
  by_cases hon : c.add_page_numbers
  · rw [if_pos hon]
    by_cases hraise : o.pagenumsRaises
    · rw [if_pos hraise]
      right
      exact ⟨_, rfl, by simp [statusWrites], by simp [outputWrites],
        by simp [stepsRun], by simp [rmPaths]⟩
    · rw [if_neg hraise]
      by_cases hex : o.ex (numberedName s.cur)
      · rw [if_pos hex]
        left
        exact ⟨_, _, by rw [List.append_assoc], by simp [statusWrites],
          by simp [outputWrites], by simp [stepsRun], by simp [rmPaths], Or.inr rfl⟩
      · rw [if_neg hex]
        left
        exact ⟨_, _, rfl, by simp [statusWrites], by simp [outputWrites],
          by simp [stepsRun], by simp [rmPaths], Or.inl rfl⟩
  · rw [if_neg hon]
    left
    exact ⟨[], s.cur, by rw [List.append_nil], rfl, rfl, by simp [stepsRun],
      by simp [rmPaths], Or.inl rfl⟩

/-- Characterization of optional step 5: no status or `output_path`
write, only the tool invoked, unguarded removal only of the current
artifact, and the current artifact kept or replaced by the convention
output. -/
theorem asyncStep5_spec (c : Cfg) (o : Orc) (s : St) :
    (∃ t cur, asyncStep5 c o s = .go ⟨s.evs ++ t, cur⟩
      ∧ statusWrites t = [] ∧ outputWrites t = []
      ∧ (∀ n ∈ stepsRun t, n = StepName.compresspdf)
      ∧ (∀ p ∈ rmPaths t, p = s.cur)
      ∧ (cur = s.cur ∨ cur = compressedName s.cur))
    ∨ (∃ t, asyncStep5 c o s = .stop (s.evs ++ t) (some o.excMsg)
      ∧ statusWrites t = [] ∧ outputWrites t = []
      ∧ (∀ n ∈ stepsRun t, n = StepName.compresspdf)
      ∧ rmPaths t = []) := by
  rw [asyncStep5]
  by_cases hon : c.compress
  · rw [if_pos hon]
    by_cases hraise : o.compressRaises
    · rw [if_pos hraise]
      right
      exact ⟨_, rfl, by simp [statusWrites], by simp [outputWrites],
        by simp [stepsRun], by simp [rmPaths]⟩
    · rw [if_neg hraise]
      by_cases hex : o.ex (compressedName s.cur)
      · rw [if_pos hex]
        left
        exact ⟨_, _, by rw [List.append_assoc], by simp [statusWrites],
          by simp [outputWrites], by simp [stepsRun], by simp [rmPaths], Or.inr rfl⟩
      · rw [if_neg hex]
        left
        exact ⟨_, _, rfl, by simp [statusWrites], by simp [outputWrites],
          by simp [stepsRun], by simp [rmPaths], Or.inl rfl⟩
  · rw [if_neg hon]
    left
    exact ⟨[], s.cur, by rw [List.append_nil], rfl, rfl, by simp [stepsRun],
      by simp [rmPaths], Or.inl rfl⟩

/-- Characterization of the finishing block: the move, then either an escaped
exception or the single `completed` status write. -/
theorem asyncFinish_spec (c : Cfg) (o : Orc) (s : St) :
    (∃ t, asyncFinish c o s = (s.evs ++ t, some o.excMsg)
      ∧ statusWrites t = [] ∧ outputWrites t = [] ∧ stepsRun t = [] ∧ rmPaths t = [])
    ∨ (∃ t, asyncFinish c o s = (s.evs ++ t, none)
      ∧ statusWrites t = [JStat.completed] ∧ outputWrites t = []
      ∧ stepsRun t = [] ∧ rmPaths t = []) := by
  rw [asyncFinish]
  by_cases hraise : o.moveRaises
  · rw [if_pos hraise]
    left
    exact ⟨_, rfl, by simp [statusWrites], by simp [outputWrites],
      by simp [stepsRun], by simp [rmPaths]⟩
  · rw [if_neg hraise]
    right
    simp only [List.append_assoc]
    refine ⟨_, rfl, ?_, ?_, ?_, ?_⟩
    · by_cases hem : c.email ≠ []
      · rw [if_pos hem]; simp [statusWrites]
      · rw [if_neg hem]; simp [statusWrites]
    · by_cases hem : c.email ≠ []
      · rw [if_pos hem]; simp [outputWrites]
      · rw [if_neg hem]; simp [outputWrites]
    · by_cases hem : c.email ≠ []
      · rw [if_pos hem]; simp [stepsRun]
      · rw [if_neg hem]; simp [stepsRun]
    · by_cases hem : c.email ≠ []
      · rw [if_pos hem]; simp [rmPaths]
      · rw [if_neg hem]; simp [rmPaths]

theorem statusWrites_s0evs : statusWrites s0evs = [JStat.processing] := rfl

theorem outputWrites_s0evs : outputWrites s0evs = [] := rfl

theorem stepsRun_s0evs : stepsRun s0evs = [] := rfl

theorem rmPaths_s0evs : rmPaths s0evs = [] := rfl

/-- Composition: over every oracle, the `try` block writes `processing`
first and then at most one further status — `failed` (mandatory-step
failure) or `completed` — and never touches `output_path`; when an exception
escapes, no status beyond `processing` was written. -/
theorem asyncBody_shape (c : Cfg) (o : Orc) :
    outputWrites (asyncBody c o).1 = []
    ∧ ((statusWrites (asyncBody c o).1 = [JStat.processing]
          ∧ (asyncBody c o).2 = some o.excMsg)
      ∨ (statusWrites (asyncBody c o).1 = [JStat.processing, JStat.failed]
          ∧ (asyncBody c o).2 = none)
      ∨ (statusWrites (asyncBody c o).1 = [JStat.processing, JStat.completed]
          ∧ (asyncBody c o).2 = none)) := by
  rw [asyncBody]
  rcases asyncStep1_spec c o ⟨s0evs, c.input_path⟩ with
      ⟨t1, cur1, heq1, hst1, hou1, _, _, _⟩ | ⟨t1, heq1, hst1, hou1, _, _⟩
  · rw [heq1]; dsimp only
    rcases asyncStep2_spec c o ⟨s0evs ++ t1, cur1⟩ with
        ⟨t2, cur2, heq2, hst2, hou2, _, _, _⟩ | ⟨t2, heq2, hst2, hou2, _, _⟩
        | ⟨t2, heq2, hst2, hou2, _, _⟩
    · rw [heq2]; dsimp only
      rcases asyncStep3_spec c o ⟨(s0evs ++ t1) ++ t2, cur2⟩ with
          ⟨t3, cur3, heq3, hst3, hou3, _, _, _⟩ | ⟨t3, heq3, hst3, hou3, _, _⟩
      · rw [heq3]; dsimp only
        rcases asyncStep4_spec c o ⟨((s0evs ++ t1) ++ t2) ++ t3, cur3⟩ with
            ⟨t4, cur4, heq4, hst4, hou4, _, _, _⟩ | ⟨t4, heq4, hst4, hou4, _, _⟩
        · rw [heq4]; dsimp only
          rcases asyncStep5_spec c o ⟨(((s0evs ++ t1) ++ t2) ++ t3) ++ t4, cur4⟩ with
              ⟨t5, cur5, heq5, hst5, hou5, _, _, _⟩ | ⟨t5, heq5, hst5, hou5, _, _⟩
          · rw [heq5]; dsimp only
            rcases asyncFinish_spec c o ⟨((((s0evs ++ t1) ++ t2) ++ t3) ++ t4) ++ t5, cur5⟩ with
                ⟨t6, heq6, hst6, hou6, _, _⟩ | ⟨t6, heq6, hst6, hou6, _, _⟩
            · rw [heq6]; dsimp only
              refine ⟨?_, Or.inl ⟨?_, rfl⟩⟩
              · simp [outputWrites_append, hou1, hou2, hou3, hou4, hou5, hou6, outputWrites_s0evs]
              · simp [statusWrites_append, hst1, hst2, hst3, hst4, hst5, hst6, statusWrites_s0evs]
            · rw [heq6]; dsimp only
              refine ⟨?_, Or.inr (Or.inr ⟨?_, rfl⟩)⟩
              · simp [outputWrites_append, hou1, hou2, hou3, hou4, hou5, hou6, outputWrites_s0evs]
              · simp [statusWrites_append, hst1, hst2, hst3, hst4, hst5, hst6, statusWrites_s0evs]
          · rw [heq5]; dsimp only
            refine ⟨?_, Or.inl ⟨?_, rfl⟩⟩
            · simp [outputWrites_append, hou1, hou2, hou3, hou4, hou5, outputWrites_s0evs]
            · simp [statusWrites_append, hst1, hst2, hst3, hst4, hst5, statusWrites_s0evs]
        · rw [heq4]; dsimp only
          refine ⟨?_, Or.inl ⟨?_, rfl⟩⟩
          · simp [outputWrites_append, hou1, hou2, hou3, hou4, outputWrites_s0evs]
          · simp [statusWrites_append, hst1, hst2, hst3, hst4, statusWrites_s0evs]
      · rw [heq3]; dsimp only
        refine ⟨?_, Or.inl ⟨?_, rfl⟩⟩
        · simp [outputWrites_append, hou1, hou2, hou3, outputWrites_s0evs]
        · simp [statusWrites_append, hst1, hst2, hst3, statusWrites_s0evs]
    · rw [heq2]; dsimp only
      refine ⟨?_, Or.inl ⟨?_, rfl⟩⟩
      · simp [outputWrites_append, hou1, hou2, outputWrites_s0evs]
      · simp [statusWrites_append, hst1, hst2, statusWrites_s0evs]
    · rw [heq2]; dsimp only
      refine ⟨?_, Or.inr (Or.inl ⟨?_, rfl⟩)⟩
      · simp [outputWrites_append, hou1, hou2, outputWrites_s0evs]
      · simp [statusWrites_append, hst1, hst2, statusWrites_s0evs]
  · rw [heq1]; dsimp only
    refine ⟨?_, Or.inl ⟨?_, rfl⟩⟩
    · simp [outputWrites_append, hou1, outputWrites_s0evs]
    · simp [statusWrites_append, hst1, statusWrites_s0evs]

theorem statusWrites_ite (b : Prop) [Decidable b] (x y : List Ev) :
    statusWrites (if b then x else y) = if b then statusWrites x else statusWrites y :=
  apply_ite _ _ _ _

theorem rmPaths_ite (b : Prop) [Decidable b] (x y : List Ev) :
    rmPaths (if b then x else y) = if b then rmPaths x else rmPaths y :=
  apply_ite _ _ _ _

theorem stepsRun_ite (b : Prop) [Decidable b] (x y : List Ev) :
    stepsRun (if b then x else y) = if b then stepsRun x else stepsRun y :=
  apply_ite _ _ _ _

/-- C1: one full `process_pdf_async` run writes `processing` first and then
exactly one terminal status, on every oracle (including runs where an
external call raises). -/
theorem process_pdf_async_statusWrites (c : Cfg) (o : Orc) :
    statusWrites (process_pdf_async c o) = [JStat.processing, JStat.completed]
    ∨ statusWrites (process_pdf_async c o) = [JStat.processing, JStat.failed] := by
  obtain ⟨_, hdisj⟩ := asyncBody_shape c o
  rw [process_pdf_async, bodyPlusHandler]
  rcases hdisj with ⟨hst, hm⟩ | ⟨hst, hm⟩ | ⟨hst, hm⟩
  · right
    simp only [hm, handlerEvs, statusWrites_append, statusWrites_ite, hst]
    simp [statusWrites]
  · right
    simp only [hm, handlerEvs, statusWrites_append, statusWrites_ite, hst]
    simp [statusWrites]
  · left
    simp only [hm, handlerEvs, statusWrites_append, statusWrites_ite, hst]
    simp [statusWrites]

/-- C1: For every Job, the state writes are monotonic.  The submission
service creates the record in `queued` state (app_async.py line 391); the
spawned worker is then the only writer of `job['status']`.  Over every
oracle the full write sequence is exactly `queued, processing, completed` or
`queued, processing, failed`: the state only moves forward, exactly one
terminal state is written, and nothing is written after it. -/
theorem job_state_monotonic (c : Cfg) (o : Orc) :
    JStat.queued :: statusWrites (process_pdf_async c o)
      = [JStat.queued, JStat.processing, JStat.completed]
    ∨ JStat.queued :: statusWrites (process_pdf_async c o)
      = [JStat.queued, JStat.processing, JStat.failed] := by
  rcases process_pdf_async_statusWrites c o with h | h
  · left; rw [h]
  · right; rw [h]

theorem pdf_infix_of_suffix {s tl : Pstr} (h : s = tl ++ str ".pdf") :
    str ".pdf" <:+: s := ⟨tl, [], by simp [h]⟩

theorem derived_ge (p : Pstr) (rep : String) (h : (str ".pdf").length ≤ (str rep).length) :
    p.length ≤ (pyReplace p (str ".pdf") (str rep)).length :=
  pyReplace_length_ge p _ _ h


/-- Composition: mid-pipeline removals never target the submitted input
artifact.  Requires that the input path ends in `.pdf` (so convention
renames strictly grow it) and that the requested output path is longer than
the input path (true of the paths built by `upload_file`). -/
theorem asyncBody_rm (c : Cfg) (o : Orc)
    (hpdf : str ".pdf" <:+: c.input_path)
    (hout : c.input_path.length < c.output_path.length) :
    ∀ p ∈ rmPaths (asyncBody c o).1, p ≠ c.input_path := by
  rw [asyncBody]
  rcases asyncStep1_spec c o ⟨s0evs, c.input_path⟩ with
      ⟨t1, cur1, heq1, _, _, _, hrm1, hcur1⟩ | ⟨t1, heq1, _, _, _, hrm1⟩
  · rw [heq1]; dsimp only
    dsimp only at hrm1 hcur1
    have hinv1 : cur1 = c.input_path ∨ c.input_path.length < cur1.length := by
      rcases hcur1 with h | h
      · exact Or.inl h
      · right
        rw [h]
        exact pyReplace_length_gt _ _ _ (by decide) (by decide) hpdf
    rcases asyncStep2_spec c o ⟨s0evs ++ t1, cur1⟩ with
        ⟨t2, cur2, heq2, _, _, _, hrm2, hcur2⟩ | ⟨t2, heq2, _, _, _, hrm2⟩
        | ⟨t2, heq2, _, _, _, hrm2⟩
    · rw [heq2]; dsimp only
      dsimp only at hrm2 hcur2
      have hinv2 : c.input_path.length < cur2.length := by
        rcases hcur2 with h | h
        · rcases hinv1 with h1 | h1
          · rw [h, h1]
            exact pyReplace_length_gt _ _ _ (by decide) (by decide) hpdf
          · rw [h]
            exact lt_of_lt_of_le h1 (pyReplace_length_ge _ _ _ (by decide))
        · rw [h]; exact hout
      rcases asyncStep3_spec c o ⟨(s0evs ++ t1) ++ t2, cur2⟩ with
          ⟨t3, cur3, heq3, _, _, _, hrm3, hcur3⟩ | ⟨t3, heq3, _, _, _, hrm3⟩
      · rw [heq3]; dsimp only
        dsimp only at hrm3 hcur3
        have hinv3 : c.input_path.length < cur3.length := by
          rcases hcur3 with h | h
          · rw [h]; exact hinv2
          · rw [h]
            exact lt_of_lt_of_le hinv2 (pyReplace_length_ge _ _ _ (by decide))
        rcases asyncStep4_spec c o ⟨((s0evs ++ t1) ++ t2) ++ t3, cur3⟩ with
            ⟨t4, cur4, heq4, _, _, _, hrm4, hcur4⟩ | ⟨t4, heq4, _, _, _, hrm4⟩
        · rw [heq4]; dsimp only
          dsimp only at hrm4 hcur4
          have hinv4 : c.input_path.length < cur4.length := by
            rcases hcur4 with h | h
            · rw [h]; exact hinv3
            · rw [h]
              exact lt_of_lt_of_le hinv3 (pyReplace_length_ge _ _ _ (by decide))
          rcases asyncStep5_spec c o ⟨(((s0evs ++ t1) ++ t2) ++ t3) ++ t4, cur4⟩ with
              ⟨t5, cur5, heq5, _, _, _, hrm5, hcur5⟩ | ⟨t5, heq5, _, _, _, hrm5⟩
          · rw [heq5]; dsimp only
            dsimp only at hrm5 hcur5
            rcases asyncFinish_spec c o ⟨((((s0evs ++ t1) ++ t2) ++ t3) ++ t4) ++ t5, cur5⟩ with
                ⟨t6, heq6, _, _, _, hrm6⟩ | ⟨t6, heq6, _, _, _, hrm6⟩
            · rw [heq6]; dsimp only
              intro p hp
              simp only [rmPaths_append, rmPaths_s0evs, List.nil_append, List.mem_append] at hp
              rcases hp with (((((hp1) | hp2) | hp3) | hp4) | hp5) | hp6
              · exact fun hc => (hrm1 p hp1).2 ((hrm1 p hp1).1.symm.trans hc)
              · exact fun hc => (hrm2 p hp2).2 ((hrm2 p hp2).1.symm.trans hc)
              · intro hc
                have hpe := hrm3 p hp3
                rw [hpe] at hc
                rw [hc] at hinv2
                exact lt_irrefl _ hinv2
              · intro hc
                have hpe := hrm4 p hp4
                rw [hpe] at hc
                rw [hc] at hinv3
                exact lt_irrefl _ hinv3
              · intro hc
                have hpe := hrm5 p hp5
                rw [hpe] at hc
                rw [hc] at hinv4
                exact lt_irrefl _ hinv4
              · rw [hrm6] at hp6
                exact absurd hp6 (List.not_mem_nil p)
            · rw [heq6]; dsimp only
              intro p hp
              simp only [rmPaths_append, rmPaths_s0evs, List.nil_append, List.mem_append] at hp
              rcases hp with (((((hp1) | hp2) | hp3) | hp4) | hp5) | hp6
              · exact fun hc => (hrm1 p hp1).2 ((hrm1 p hp1).1.symm.trans hc)
              · exact fun hc => (hrm2 p hp2).2 ((hrm2 p hp2).1.symm.trans hc)
              · intro hc
                have hpe := hrm3 p hp3
                rw [hpe] at hc
                rw [hc] at hinv2
                exact lt_irrefl _ hinv2
              · intro hc
                have hpe := hrm4 p hp4
                rw [hpe] at hc
                rw [hc] at hinv3
                exact lt_irrefl _ hinv3
              · intro hc
                have hpe := hrm5 p hp5
                rw [hpe] at hc
                rw [hc] at hinv4
                exact lt_irrefl _ hinv4
              · rw [hrm6] at hp6
                exact absurd hp6 (List.not_mem_nil p)
          · rw [heq5]; dsimp only
            intro p hp
            simp only [rmPaths_append, rmPaths_s0evs, List.nil_append, List.mem_append] at hp
            rcases hp with ((((hp1) | hp2) | hp3) | hp4) | hp5
            · exact fun hc => (hrm1 p hp1).2 ((hrm1 p hp1).1.symm.trans hc)
            · exact fun hc => (hrm2 p hp2).2 ((hrm2 p hp2).1.symm.trans hc)
            · intro hc
              have hpe := hrm3 p hp3
              rw [hpe] at hc
              rw [hc] at hinv2
              exact lt_irrefl _ hinv2
            · intro hc
              have hpe := hrm4 p hp4
              rw [hpe] at hc
              rw [hc] at hinv3
              exact lt_irrefl _ hinv3
            · rw [hrm5] at hp5
              exact absurd hp5 (List.not_mem_nil p)
        · rw [heq4]; dsimp only
          intro p hp
          simp only [rmPaths_append, rmPaths_s0evs, List.nil_append, List.mem_append] at hp
          rcases hp with (((hp1) | hp2) | hp3) | hp4
          · exact fun hc => (hrm1 p hp1).2 ((hrm1 p hp1).1.symm.trans hc)
          · exact fun hc => (hrm2 p hp2).2 ((hrm2 p hp2).1.symm.trans hc)
          · intro hc
            have hpe := hrm3 p hp3
            rw [hpe] at hc
            rw [hc] at hinv2
            exact lt_irrefl _ hinv2
          · rw [hrm4] at hp4
            exact absurd hp4 (List.not_mem_nil p)
      · rw [heq3]; dsimp only
        intro p hp
        simp only [rmPaths_append, rmPaths_s0evs, List.nil_append, List.mem_append] at hp
        rcases hp with ((hp1) | hp2) | hp3
        · exact fun hc => (hrm1 p hp1).2 ((hrm1 p hp1).1.symm.trans hc)
        · exact fun hc => (hrm2 p hp2).2 ((hrm2 p hp2).1.symm.trans hc)
        · rw [hrm3] at hp3
          exact absurd hp3 (List.not_mem_nil p)
    · rw [heq2]; dsimp only
      intro p hp
      simp only [rmPaths_append, rmPaths_s0evs, List.nil_append, List.mem_append] at hp
      rcases hp with (hp1) | hp2
      · exact fun hc => (hrm1 p hp1).2 ((hrm1 p hp1).1.symm.trans hc)
      · rw [hrm2] at hp2
        exact absurd hp2 (List.not_mem_nil p)
    · rw [heq2]; dsimp only
      intro p hp
      simp only [rmPaths_append, rmPaths_s0evs, List.nil_append, List.mem_append] at hp
      rcases hp with (hp1) | hp2
      · exact fun hc => (hrm1 p hp1).2 ((hrm1 p hp1).1.symm.trans hc)
      · rw [hrm2] at hp2
        exact absurd hp2 (List.not_mem_nil p)
  · rw [heq1]; dsimp only
    intro p hp
    simp only [rmPaths_append, rmPaths_s0evs, List.nil_append, List.mem_append] at hp
    rw [hrm1] at hp
    exact absurd hp (List.not_mem_nil p)

theorem rmPaths_handlerEvs (c : Cfg) (m : Option Pstr) : rmPaths (handlerEvs c m) = [] := by
  match m with
  | none => rfl
  | some msg =>
    rw [handlerEvs]
    by_cases hem : c.email ≠ []
    · rw [if_pos hem]; simp [rmPaths]
    · rw [if_neg hem]; simp [rmPaths]

/-- The input artifact is not removed before the `finally` block. -/
theorem bodyPlusHandler_no_input_rm (c : Cfg) (o : Orc)
    (hpdf : str ".pdf" <:+: c.input_path)
    (hout : c.input_path.length < c.output_path.length) :
    c.input_path ∉ rmPaths (bodyPlusHandler c o) := by
  rw [bodyPlusHandler, rmPaths_append, rmPaths_handlerEvs, List.append_nil]
  intro hc
  exact asyncBody_rm c o hpdf hout c.input_path hc rfl

/-- C5 amended: provided the stored filename ends in LOWERCASE `.pdf`, on
every terminal path — completed, failed, or an unexpected exception — the
originally submitted input artifact is removed exactly once, by the
`finally` block, and never mid-pipeline.  The path hypotheses give the
construction in `upload_file` (lines 376-377): the worker is invoked with
`input = DIR/{job_id}_{filename}` and
`output = DIR/{job_id}_fixed_{filename}`.  The lowercase restriction `hfn`
is essential and NOT guaranteed by `upload_file`, whose extension checks
are case-insensitive: an upload stored as `DOC.PDF` is accepted unchanged,
and on such a run the guarantee fails — see the C5 counterexample theorem
below, where an optional step's unguarded `os.remove` deletes the input
mid-pipeline because the `.pdf`-replace naming conventions are no-ops on
the uppercase path. -/
theorem process_pdf_async_input_cleanup (dir jid fn : Pstr) (c : Cfg) (o : Orc)
    (hIn : c.input_path = dir ++ str "/" ++ jid ++ str "_" ++ fn)
    (hOut : c.output_path = dir ++ str "/" ++ jid ++ str "_fixed_" ++ fn)
    (hfn : ∃ tl, fn = tl ++ str ".pdf")
    (hdisk : o.inputOnDisk = true) :
    process_pdf_async c o = bodyPlusHandler c o ++ [Ev.rmFile c.input_path]
    ∧ c.input_path ∉ rmPaths (bodyPlusHandler c o)
    ∧ (rmPaths (process_pdf_async c o)).count c.input_path = 1 := by
  obtain ⟨tl, htl⟩ := hfn
  have hpdf : str ".pdf" <:+: c.input_path := by
    refine ⟨dir ++ str "/" ++ jid ++ str "_" ++ tl, [], ?_⟩
    rw [hIn, htl]
    simp [List.append_assoc]
  have hout : c.input_path.length < c.output_path.length := by
    rw [hIn, hOut]
    simp only [List.length_append]
    have h1 : (str "_").length = 1 := by decide
    have h7 : (str "_fixed_").length = 7 := by decide
    omega
  have hnotin := bodyPlusHandler_no_input_rm c o hpdf hout
  have heq : process_pdf_async c o = bodyPlusHandler c o ++ [Ev.rmFile c.input_path] := by
    rw [process_pdf_async, if_pos ⟨hdisk, hnotin⟩]
  refine ⟨heq, hnotin, ?_⟩
  rw [heq, rmPaths_append]
  rw [List.count_append]
  rw [List.count_eq_zero.mpr hnotin]
  simp [rmPaths]

theorem process_pdf_async_input_cleanup_witness :
    ((str "/tmp/pdf-uploads/j1_doc.pdf" : Pstr)
        = str "/tmp/pdf-uploads" ++ str "/" ++ str "j1" ++ str "_" ++ str "doc.pdf")
    ∧ ((str "/tmp/pdf-uploads/j1_fixed_doc.pdf" : Pstr)
        = str "/tmp/pdf-uploads" ++ str "/" ++ str "j1" ++ str "_fixed_" ++ str "doc.pdf")
    ∧ (∃ tl, (str "doc.pdf" : Pstr) = tl ++ str ".pdf")
    ∧ (let c : Cfg := ⟨str "/tmp/pdf-uploads/j1_doc.pdf", str "/tmp/pdf-uploads/j1_fixed_doc.pdf",
         [], str "all", [], str "600", true, true, true, true⟩
       let o : Orc := ⟨fun p => p = str "/tmp/pdf-uploads/j1_doc-unlocked.pdf"
           ∨ p = str "/tmp/pdf-uploads/j1_doc-unlocked-FIXED.pdf",
         false, false, 0, [], false, false, false, false, str "boom", true⟩
       process_pdf_async c o = bodyPlusHandler c o ++ [Ev.rmFile c.input_path]
       ∧ c.input_path ∉ rmPaths (bodyPlusHandler c o)
       ∧ (rmPaths (process_pdf_async c o)).count c.input_path = 1) :=
  ⟨by decide, by decide, ⟨str "doc", by decide⟩,
   process_pdf_async_input_cleanup (str "/tmp/pdf-uploads") (str "j1") (str "doc.pdf") _ _
     (by decide) (by decide) ⟨str "doc", by decide⟩ rfl⟩

/-! ## Branch-precise evaluation of the worker (for the mandatory-failure,
optional-failure and refinement claims) -/

/-- `current_file` after step 1 in an exception-free run. -/
def cur1val (c : Cfg) (o : Orc) : Pstr :=
  if c.remove_security ∧ o.ex (unlockedName c.input_path) = true
  then unlockedName c.input_path else c.input_path

/-- Step-1 events of an exception-free run (the removal guard
`current_file != input_path` is never taken at step 1). -/
def unlockEvs (c : Cfg) : List Ev :=
  if c.remove_security
  then [.wprogress (str "Removing security restrictions..."), .runStep .unlock [c.input_path]]
  else []

theorem asyncStep1_noraise (c : Cfg) (o : Orc) (h1 : o.unlockRaises = false) :
    asyncStep1 c o ⟨s0evs, c.input_path⟩
      = .go ⟨s0evs ++ unlockEvs c, cur1val c o⟩ := by
  rw [asyncStep1, unlockEvs, cur1val]
  by_cases hrs : c.remove_security
  · by_cases hexu : o.ex (unlockedName c.input_path) = true
    · simp [h1, hrs, hexu]
    · simp [h1, hrs, hexu]
  · simp [hrs]

/-- The error detail captured when the mandatory step fails (lines 182-208):
stderr if nonempty, else the exit-code message; `Output file was not
created` when the script succeeded but produced no artifact. -/
def mandatoryErrMsg (o : Orc) : Pstr :=
  if o.fixRc ≠ 0 then
    (if o.fixStderr ≠ [] then o.fixStderr
     else str "Script exited with code " ++ (toString o.fixRc).data
          ++ str ". Check logs for details.")
  else str "Output file was not created"

/-- Step-2 events on a mandatory failure. -/
def step2FailEvs (c : Cfg) (o : Orc) (cur : Pstr) : List Ev :=
  [.wprogress (str "Converting PDF pages to high-resolution images..."),
   .runStep .fixfonts (fixCmdArgs c cur)]
  ++ [.wstatus .failed, .werror (mandatoryErrMsg o)]
  ++ (if o.fixRc ≠ 0 ∧ c.email ≠ [] then [.sendEmail false] else [])

theorem asyncStep2_fail (c : Cfg) (o : Orc) (s : St) (h2 : o.fixRaises = false)
    (hfail : o.fixRc ≠ 0 ∨ (o.ex (fixedName s.cur) = false ∧ o.ex c.output_path = false)) :
    asyncStep2 c o s = .stop (s.evs ++ step2FailEvs c o s.cur) none := by
  rw [asyncStep2, step2FailEvs, mandatoryErrMsg]
  by_cases hrc : o.fixRc = 0
  · rcases hfail with hne | ⟨hA, hB⟩
    · exact absurd hrc hne
    · simp [h2, hrc, hA, hB, List.append_assoc]
  · simp [h2, hrc, List.append_assoc]

/-- The body of a run in which the mandatory step fails. -/
theorem asyncBody_mandatory_fail (c : Cfg) (o : Orc)
    (h1 : o.unlockRaises = false) (h2 : o.fixRaises = false)
    (hfail : o.fixRc ≠ 0
      ∨ (o.ex (fixedName (cur1val c o)) = false ∧ o.ex c.output_path = false)) :
    asyncBody c o
      = (s0evs ++ unlockEvs c ++ step2FailEvs c o (cur1val c o), none) := by
  rw [asyncBody, asyncStep1_noraise c o h1]
  dsimp only
  rw [asyncStep2_fail c o ⟨s0evs ++ unlockEvs c, cur1val c o⟩ h2 hfail]

/-- C3: when the mandatory normalization step fails — nonzero exit status,
or no output artifact at either the `-FIXED` convention path or the
requested output path — the job transitions to `failed` with the captured
error detail, and none of the optional steps after it (OCR, pagination
marking, compression) is ever invoked. -/
theorem mandatory_failure_aborts (c : Cfg) (o : Orc)
    (h1 : o.unlockRaises = false) (h2 : o.fixRaises = false)
    (hfail : o.fixRc ≠ 0
      ∨ (o.ex (fixedName (cur1val c o)) = false ∧ o.ex c.output_path = false)) :
    statusWrites (process_pdf_async c o) = [JStat.processing, JStat.failed]
    ∧ Ev.werror (mandatoryErrMsg o) ∈ process_pdf_async c o
    ∧ ∀ n ∈ stepsRun (process_pdf_async c o),
        n = StepName.unlock ∨ n = StepName.fixfonts := by
  have hb := asyncBody_mandatory_fail c o h1 h2 hfail
  have hbph : bodyPlusHandler c o
      = s0evs ++ unlockEvs c ++ step2FailEvs c o (cur1val c o) := by
    rw [bodyPlusHandler, hb]
    simp [handlerEvs]
  refine ⟨?_, ?_, ?_⟩
  · rw [process_pdf_async, hbph]
    rw [statusWrites_append, statusWrites_ite]
    simp only [statusWrites_append, statusWrites_s0evs, step2FailEvs]
    rw [unlockEvs]
    by_cases hrs : c.remove_security
    · by_cases hml : o.fixRc ≠ 0 ∧ c.email ≠ []
      · simp [hrs, hml, statusWrites, statusWrites_append]
      · simp [hrs, hml, statusWrites, statusWrites_append]
    · by_cases hml : o.fixRc ≠ 0 ∧ c.email ≠ []
      · simp [hrs, hml, statusWrites, statusWrites_append]
      · simp [hrs, hml, statusWrites, statusWrites_append]
  · rw [process_pdf_async, hbph]
    simp [step2FailEvs, List.mem_append]
  · intro n hn
    rw [process_pdf_async, hbph] at hn
    rw [stepsRun_append, stepsRun_ite] at hn
    simp only [stepsRun_append, stepsRun_s0evs, step2FailEvs] at hn
    rw [unlockEvs] at hn
    by_cases hrs : c.remove_security
    · by_cases hml : o.fixRc ≠ 0 ∧ c.email ≠ []
      · simp [hrs, hml, stepsRun, stepsRun_append] at hn
        tauto
      · simp [hrs, hml, stepsRun, stepsRun_append] at hn
        tauto
    · by_cases hml : o.fixRc ≠ 0 ∧ c.email ≠ []
      · simp [hrs, hml, stepsRun, stepsRun_append] at hn
        tauto
      · simp [hrs, hml, stepsRun, stepsRun_append] at hn
        tauto

theorem mandatory_failure_aborts_witness :
    (let c : Cfg := ⟨str "/tmp/pdf-uploads/j1_doc.pdf", str "/tmp/pdf-uploads/j1_fixed_doc.pdf",
       [], str "all", [], str "600", true, true, true, true⟩
     let o : Orc := ⟨fun _ => false, false, false, 2, str "pdftoppm: error",
       false, false, false, false, str "boom", true⟩
     statusWrites (process_pdf_async c o) = [JStat.processing, JStat.failed]
     ∧ Ev.werror (mandatoryErrMsg o) ∈ process_pdf_async c o
     ∧ ∀ n ∈ stepsRun (process_pdf_async c o),
         n = StepName.unlock ∨ n = StepName.fixfonts) :=
  mandatory_failure_aborts _ _ rfl rfl (Or.inl (by decide))

/-- Artifact selected by a successful mandatory step (lines 196-205): the
`-FIXED` convention output if present, else the requested output path. -/
def cur2sel (c : Cfg) (o : Orc) (cur : Pstr) : Pstr :=
  if o.ex (fixedName cur) = true then fixedName cur else c.output_path

/-- Step-2 events of a successful mandatory step. -/
def step2OkEvs (c : Cfg) (o : Orc) (cur : Pstr) : List Ev :=
  [.wprogress (str "Converting PDF pages to high-resolution images..."),
   .runStep .fixfonts (fixCmdArgs c cur)]
  ++ (if cur ≠ c.input_path then [.rmFile cur] else [])

theorem asyncStep2_ok (c : Cfg) (o : Orc) (s : St) (h2 : o.fixRaises = false)
    (hrc : o.fixRc = 0)
    (hmand : o.ex (fixedName s.cur) = true ∨ o.ex c.output_path = true) :
    asyncStep2 c o s = .go ⟨s.evs ++ step2OkEvs c o s.cur, cur2sel c o s.cur⟩ := by
  rw [asyncStep2, step2OkEvs, cur2sel]
  by_cases hA : o.ex (fixedName s.cur) = true
  · simp [h2, hrc, hA, List.append_assoc]
  · rcases hmand with hm | hm
    · exact absurd hm hA
    · simp [h2, hrc, hA, hm, List.append_assoc]

/-- Artifact selected by optional step 3 (kept unless OCR is enabled and its
convention output exists). -/
def cur3sel (c : Cfg) (o : Orc) (cur : Pstr) : Pstr :=
  if c.do_ocr ∧ o.ex (ocrName cur) = true then ocrName cur else cur

def step3Evs (c : Cfg) (o : Orc) (cur : Pstr) : List Ev :=
  if c.do_ocr
  then [.wprogress (str "Running OCR..."), .runStep .ocr [cur, str "--full-ocr"]]
       ++ (if o.ex (ocrName cur) = true then [.rmFile cur] else [])
  else []

theorem asyncStep3_noraise (c : Cfg) (o : Orc) (s : St) (h : o.ocrRaises = false) :
    asyncStep3 c o s = .go ⟨s.evs ++ step3Evs c o s.cur, cur3sel c o s.cur⟩ := by
  rw [asyncStep3, step3Evs, cur3sel]
  by_cases hon : c.do_ocr
  · by_cases hex : o.ex (ocrName s.cur) = true
    · simp [h, hon, hex, List.append_assoc]
    · simp [h, hon, hex]
  · simp [hon]

def cur4sel (c : Cfg) (o : Orc) (cur : Pstr) : Pstr :=
  if c.add_page_numbers ∧ o.ex (numberedName cur) = true then numberedName cur else cur

def step4Evs (c : Cfg) (o : Orc) (cur : Pstr) : List Ev :=
  if c.add_page_numbers
  then [.wprogress (str "Adding page numbers..."), .runStep .pagenums [cur]]
       ++ (if o.ex (numberedName cur) = true then [.rmFile cur] else [])
  else []

theorem asyncStep4_noraise (c : Cfg) (o : Orc) (s : St) (h : o.pagenumsRaises = false) :
    asyncStep4 c o s = .go ⟨s.evs ++ step4Evs c o s.cur, cur4sel c o s.cur⟩ := by
  rw [asyncStep4, step4Evs, cur4sel]
  by_cases hon : c.add_page_numbers
  · by_cases hex : o.ex (numberedName s.cur) = true
    · simp [h, hon, hex, List.append_assoc]
    · simp [h, hon, hex]
  · simp [hon]

def cur5sel (c : Cfg) (o : Orc) (cur : Pstr) : Pstr :=
  if c.compress ∧ o.ex (compressedName cur) = true then compressedName cur else cur

def step5Evs (c : Cfg) (o : Orc) (cur : Pstr) : List Ev :=
  if c.compress
  then [.wprogress (str "Compressing PDF..."), .runStep .compresspdf [cur, str "ebook"]]
       ++ (if o.ex (compressedName cur) = true then [.rmFile cur] else [])
  else []

theorem asyncStep5_noraise (c : Cfg) (o : Orc) (s : St) (h : o.compressRaises = false) :
    asyncStep5 c o s = .go ⟨s.evs ++ step5Evs c o s.cur, cur5sel c o s.cur⟩ := by
  rw [asyncStep5, step5Evs, cur5sel]
  by_cases hon : c.compress
  · by_cases hex : o.ex (compressedName s.cur) = true
    · simp [h, hon, hex, List.append_assoc]
    · simp [h, hon, hex]
  · simp [hon]

def finishEvs (c : Cfg) (cur : Pstr) : List Ev :=
  [.moveFile cur c.output_path, .wstatus .completed, .wcompletedAt]
  ++ (if c.email ≠ [] then [.sendEmail true] else [])

theorem asyncFinish_noraise (c : Cfg) (o : Orc) (s : St) (h : o.moveRaises = false) :
    asyncFinish c o s = (s.evs ++ finishEvs c s.cur, none) := by
  rw [asyncFinish, finishEvs]
  simp [h, List.append_assoc]

/-- The `current_file` chain of an exception-free successful run. -/
def cur2val (c : Cfg) (o : Orc) : Pstr := cur2sel c o (cur1val c o)
def cur3val (c : Cfg) (o : Orc) : Pstr := cur3sel c o (cur2val c o)
def cur4val (c : Cfg) (o : Orc) : Pstr := cur4sel c o (cur3val c o)
def cur5val (c : Cfg) (o : Orc) : Pstr := cur5sel c o (cur4val c o)

/-- No external call of this run raises an unexpected exception. -/
def NoRaise (o : Orc) : Prop :=
  o.unlockRaises = false ∧ o.fixRaises = false ∧ o.ocrRaises = false
  ∧ o.pagenumsRaises = false ∧ o.compressRaises = false ∧ o.moveRaises = false

/-- Full evaluation of an exception-free run whose mandatory step succeeds. -/
theorem asyncBody_success (c : Cfg) (o : Orc) (hnr : NoRaise o) (hrc : o.fixRc = 0)
    (hmand : o.ex (fixedName (cur1val c o)) = true ∨ o.ex c.output_path = true) :
    asyncBody c o
      = (s0evs ++ unlockEvs c ++ step2OkEvs c o (cur1val c o)
         ++ step3Evs c o (cur2val c o) ++ step4Evs c o (cur3val c o)
         ++ step5Evs c o (cur4val c o) ++ finishEvs c (cur5val c o), none) := by
  obtain ⟨hn1, hn2, hn3, hn4, hn5, hn6⟩ := hnr
  rw [asyncBody, asyncStep1_noraise c o hn1]
  dsimp only
  rw [asyncStep2_ok c o ⟨s0evs ++ unlockEvs c, cur1val c o⟩ hn2 hrc hmand]
  dsimp only
  rw [asyncStep3_noraise c o _ hn3]
  dsimp only
  rw [asyncStep4_noraise c o _ hn4]
  dsimp only
  rw [asyncStep5_noraise c o _ hn5]
  dsimp only
  rw [asyncFinish_noraise c o _ hn6]
  dsimp only
  simp only [cur2val, cur3val, cur4val, cur5val]

theorem statusWrites_unlockEvs (c : Cfg) : statusWrites (unlockEvs c) = [] := by
  rw [unlockEvs]
  by_cases hrs : c.remove_security
  · simp [hrs, statusWrites]
  · simp [hrs, statusWrites]

theorem statusWrites_step2OkEvs (c : Cfg) (o : Orc) (cur : Pstr) :
    statusWrites (step2OkEvs c o cur) = [] := by
  rw [step2OkEvs]
  by_cases hg : cur ≠ c.input_path
  · simp [hg, statusWrites, statusWrites_append]
  · simp [hg, statusWrites, statusWrites_append]

theorem statusWrites_step3Evs (c : Cfg) (o : Orc) (cur : Pstr) :
    statusWrites (step3Evs c o cur) = [] := by
  rw [step3Evs]
  by_cases hon : c.do_ocr
  · by_cases hex : o.ex (ocrName cur) = true
    · simp [hon, hex, statusWrites, statusWrites_append]
    · simp [hon, hex, statusWrites, statusWrites_append]
  · simp [hon, statusWrites]

theorem statusWrites_step4Evs (c : Cfg) (o : Orc) (cur : Pstr) :
    statusWrites (step4Evs c o cur) = [] := by
  rw [step4Evs]
  by_cases hon : c.add_page_numbers
  · by_cases hex : o.ex (numberedName cur) = true
    · simp [hon, hex, statusWrites, statusWrites_append]
    · simp [hon, hex, statusWrites, statusWrites_append]
  · simp [hon, statusWrites]

theorem statusWrites_step5Evs (c : Cfg) (o : Orc) (cur : Pstr) :
    statusWrites (step5Evs c o cur) = [] := by
  rw [step5Evs]
  by_cases hon : c.compress
  · by_cases hex : o.ex (compressedName cur) = true
    · simp [hon, hex, statusWrites, statusWrites_append]
    · simp [hon, hex, statusWrites, statusWrites_append]
  · simp [hon, statusWrites]

theorem statusWrites_finishEvs (c : Cfg) (cur : Pstr) :
    statusWrites (finishEvs c cur) = [JStat.completed] := by
  rw [finishEvs]
  by_cases hem : c.email ≠ []
  · simp [hem, statusWrites, statusWrites_append]
  · simp [hem, statusWrites, statusWrites_append]

/-- C4: in an exception-free run whose mandatory step succeeds, a failed
enabled optional step (its convention output missing after invocation)
leaves the current artifact unchanged, and the job still reaches `completed`
with the final move taking the artifact produced by the last successful
step. -/
theorem optional_failure_continues (c : Cfg) (o : Orc) (hnr : NoRaise o)
    (hrc : o.fixRc = 0)
    (hmand : o.ex (fixedName (cur1val c o)) = true ∨ o.ex c.output_path = true) :
    statusWrites (process_pdf_async c o) = [JStat.processing, JStat.completed]
    ∧ Ev.moveFile (cur5val c o) c.output_path ∈ process_pdf_async c o
    ∧ (c.remove_security = true → o.ex (unlockedName c.input_path) = false →
        cur1val c o = c.input_path)
    ∧ (c.do_ocr = true → o.ex (ocrName (cur2val c o)) = false →
        cur3val c o = cur2val c o)
    ∧ (c.add_page_numbers = true → o.ex (numberedName (cur3val c o)) = false →
        cur4val c o = cur3val c o)
    ∧ (c.compress = true → o.ex (compressedName (cur4val c o)) = false →
        cur5val c o = cur4val c o) := by
  have hb := asyncBody_success c o hnr hrc hmand
  have hbph : bodyPlusHandler c o
      = s0evs ++ unlockEvs c ++ step2OkEvs c o (cur1val c o)
        ++ step3Evs c o (cur2val c o) ++ step4Evs c o (cur3val c o)
        ++ step5Evs c o (cur4val c o) ++ finishEvs c (cur5val c o) := by
    rw [bodyPlusHandler, hb]
    simp [handlerEvs]
  refine ⟨?_, ?_, ?_, ?_, ?_, ?_⟩
  · rw [process_pdf_async, hbph]
    rw [statusWrites_append, statusWrites_ite]
    simp only [statusWrites_append, statusWrites_s0evs, statusWrites_unlockEvs,
      statusWrites_step2OkEvs, statusWrites_step3Evs, statusWrites_step4Evs,
      statusWrites_step5Evs, statusWrites_finishEvs]
    simp [statusWrites]
  · rw [process_pdf_async, hbph]
    simp only [finishEvs, List.append_assoc, List.mem_append, List.mem_cons]
    tauto
  · intro hrs hex
    simp [cur1val, hrs, hex]
  · intro hon hex
    simp [cur3val, cur3sel, hon, hex]
  · intro hon hex
    simp [cur4val, cur4sel, hon, hex]
  · intro hon hex
    simp [cur5val, cur5sel, hon, hex]

theorem optional_failure_continues_witness :
    (let c : Cfg := ⟨str "/tmp/pdf-uploads/j1_doc.pdf", str "/tmp/pdf-uploads/j1_fixed_doc.pdf",
       [], str "all", [], str "600", true, true, true, true⟩
     let o : Orc := ⟨fun p => p = str "/tmp/pdf-uploads/j1_doc-FIXED.pdf"
         ∨ p = str "/tmp/pdf-uploads/j1_doc-FIXED-numbered.pdf",
       false, false, 0, [], false, false, false, false, str "boom", true⟩
     statusWrites (process_pdf_async c o) = [JStat.processing, JStat.completed]
     ∧ Ev.moveFile (cur5val c o) c.output_path ∈ process_pdf_async c o
     ∧ (c.remove_security = true → o.ex (unlockedName c.input_path) = false →
         cur1val c o = c.input_path)
     ∧ (c.do_ocr = true → o.ex (ocrName (cur2val c o)) = false →
         cur3val c o = cur2val c o)
     ∧ (c.add_page_numbers = true → o.ex (numberedName (cur3val c o)) = false →
         cur4val c o = cur3val c o)
     ∧ (c.compress = true → o.ex (compressedName (cur4val c o)) = false →
         cur5val c o = cur4val c o)) :=
  optional_failure_continues _ _ ⟨rfl, rfl, rfl, rfl, rfl, rfl⟩ rfl (Or.inl (by decide))

/-! ## Validation helpers (app_async.py lines 66-89) -/

/-- Character class `[a-zA-Z0-9._%+-]` (local part of the email regex). -/
def isAchar (c : Char) : Bool :=
  c.isAlphanum || c = '.' || c = '_' || c = '%' || c = '+' || c = '-'

/-- Character class `[a-zA-Z0-9.-]` (domain part of the email regex). -/
def isBchar (c : Char) : Bool :=
  c.isAlphanum || c = '.' || c = '-'

/-- The anchored regex `^[a-zA-Z0-9._%+-]+@[a-zA-Z0-9.-]+\.[a-zA-Z]{2,}$`
(line 72).  A match forces exactly one `@` (neither class contains it) and
the final `\.[a-zA-Z]{2,}` must split at the last dot of the domain (the
top-level label is all-alphabetic, hence dot-free). -/
def emailRegexMatch (e : Pstr) : Bool :=
  let lpart := e.takeWhile (fun c => c ≠ '@')
  match e.drop lpart.length with
  | '@' :: r =>
    !r.contains '@' && !lpart.isEmpty && lpart.all isAchar &&
    (let tld := (r.reverse.takeWhile (fun c => c ≠ '.')).reverse
     let mid := r.take (r.length - tld.length - 1)
     r.contains '.' && !mid.isEmpty && mid.all isBchar
       && decide (2 ≤ tld.length) && tld.all (fun c => c.isAlpha))
  | _ => false

/-- `validate_email` (lines 66-81). -/
def validate_email (e : Pstr) : Bool :=
  if e.isEmpty || decide (254 < e.length) then false
  else if !emailRegexMatch e then false
  else if (str "<>\\/|;&$`").any (fun c => e.contains c) then false
  else true

example : validate_email (str "user@example.com") = true := by decide
example : validate_email (str "bademail") = false := by decide
example : validate_email (str "a@b@c.com") = false := by decide
example : validate_email (str "a@b.c") = false := by decide

/-- `filename.rsplit('.', 1)[1]`: the part after the last dot. -/
def afterLastDot (p : Pstr) : Pstr := (p.reverse.takeWhile (fun c => c ≠ '.')).reverse

def lowerAll (p : Pstr) : Pstr := p.map Char.toLower

/-- `allowed_file` (lines 83-89). -/
def allowed_file (fname : Pstr) : Bool :=
  !fname.isEmpty && fname.contains '.' && (lowerAll (afterLastDot fname) = str "pdf")

example : allowed_file (str "doc.pdf") = true := by decide
example : allowed_file (str "doc.PDF") = true := by decide
example : allowed_file (str "doc.txt") = false := by decide
example : allowed_file (str "pdf") = false := by decide

/-- `filename.lower().endswith('.pdf')` (line 372). -/
def endsPdfLower (p : Pstr) : Bool := (str ".pdf").isSuffixOf (lowerAll p)

/-! ## Job registry and request-surface models (app_async.py lines 39-40,
303-473) -/

/-- One record of `processing_jobs` (dict keys modelled as fields; keys that
are absent until first written are `Option`). -/
structure Job where
  filename : Pstr
  email : Pstr
  status : JStat
  output_path : Option Pstr
  error : Option Pstr
  progress : Option Pstr
  completedAt : Bool
deriving DecidableEq, Repr

abbrev Registry := List (Pstr × Job)

def lookupReg (reg : Registry) (jid : Pstr) : Option Job :=
  (reg.find? (fun e => decide (e.1 = jid))).map (fun e => e.2)

/-- Replaying the worker's record writes onto a job record. -/
def applyEv (j : Job) (e : Ev) : Job :=
  match e with
  | .wstatus s => { j with status := s }
  | .wprogress p => { j with progress := some p }
  | .werror m => { j with error := some m }
  | .wcompletedAt => { j with completedAt := true }
  | .woutputPath p => { j with output_path := some p }
  | _ => j

def UPLOAD_FOLDER : Pstr := str "/tmp/pdf-uploads"

/-- The upload request surface: client identity, form fields and file
metadata (after Flask's form parsing with its defaults). -/
structure UpReq where
  ip : Pstr
  email : Pstr          -- request.form.get('email','').strip()
  pages_mode : Pstr
  custom_pages : Pstr
  dpi : Pstr
  do_ocr : Bool
  add_page_numbers : Bool
  compress : Bool
  remove_security : Bool
  hasFile : Bool        -- 'file' in request.files
  filename : Pstr       -- file.filename
  fileSize : Nat

/-- External collaborators of `upload_file`: werkzeug's `secure_filename`,
`os.path.abspath`, the generated `uuid4` job id, and the wall clock. -/
structure UpEnv where
  secure_filename : Pstr → Pstr
  absp : Pstr → Pstr
  job_id : Pstr
  now : ℚ

inductive JsonResp
  | err (code : Nat) (msg : Pstr)
  | ok (job_id : Pstr) (fname : Pstr)
  | statusResp (status : JStat) (filename : Option Pstr) (progress : Pstr)
      (errField : Option Pstr)
  | fileResp (path : Pstr) (dlname : Pstr)
deriving DecidableEq, Repr

/-- The sanitized filename (lines 366-373): werkzeug's `secure_filename`,
the `document.pdf` fallback, and the forced `.pdf` extension. -/
def uploadFname (env : UpEnv) (r : UpReq) : Pstr :=
  let fn0 := env.secure_filename r.filename
  let fn1 := if fn0.isEmpty then str "document.pdf" else fn0
  if !endsPdfLower fn1 then fn1 ++ str ".pdf" else fn1

/-- `input_path` (line 376); `os.path.join(dir, name) = dir ++ "/" ++ name`
since the folder has no trailing slash and the name no leading one. -/
def uploadInputPath (env : UpEnv) (r : UpReq) : Pstr :=
  env.absp (UPLOAD_FOLDER ++ str "/" ++ env.job_id ++ str "_" ++ uploadFname env r)

/-- `output_path` (line 377). -/
def uploadOutputPath (env : UpEnv) (r : UpReq) : Pstr :=
  env.absp (UPLOAD_FOLDER ++ str "/" ++ env.job_id ++ str "_fixed_" ++ uploadFname env r)

/-- The DPI whitelist defaulting (lines 331-333). -/
def uploadDpi (r : UpReq) : Pstr :=
  if r.dpi ≠ str "300" ∧ r.dpi ≠ str "600" ∧ r.dpi ≠ str "1200" then str "600" else r.dpi

/-- `upload_file` (lines 308-414): returns the HTTP response, the new
rate-limiter state, the new registry, and the worker arguments of the
spawned thread (`none` when no job was started).  Note the admission check
runs — and records its timestamp — before any validation. -/
def upload_file (env : UpEnv) (st : RL) (reg : Registry) (r : UpReq) :
    JsonResp × RL × Registry × Option Cfg :=
  let rl := check_rate_limit st env.now r.ip
  if !rl.1 then
    (.err 429 (str "Too many upload attempts. Please try again later."), rl.2, reg, none)
  else
    if !r.email.isEmpty && !validate_email r.email then
      (.err 400 (str "Invalid email address format"), rl.2, reg, none)
    else if !r.hasFile then
      (.err 400 (str "No file provided"), rl.2, reg, none)
    else if r.filename.isEmpty then
      (.err 400 (str "No file selected"), rl.2, reg, none)
    else if allowed_file r.filename then
      if MAX_FILE_SIZE < r.fileSize then
        (.err 400 (str "File size exceeds 100MB limit"), rl.2, reg, none)
      else if r.fileSize = 0 then
        (.err 400 (str "File is empty"), rl.2, reg, none)
      else if MAX_FILENAME_LENGTH < r.filename.length then
        (.err 400 (str "Filename is too long"), rl.2, reg, none)
      else
        if !(env.absp UPLOAD_FOLDER).isPrefixOf (uploadInputPath env r) then
          (.err 400 (str "Invalid file path"), rl.2, reg, none)
        else if !(env.absp UPLOAD_FOLDER).isPrefixOf (uploadOutputPath env r) then
          (.err 400 (str "Invalid file path"), rl.2, reg, none)
        else
          let job : Job := ⟨str "fixed_" ++ uploadFname env r, r.email, .queued,
                            some (uploadOutputPath env r), none, none, false⟩
          (.ok env.job_id (str "fixed_" ++ uploadFname env r), rl.2,
           reg ++ [(env.job_id, job)],
           some ⟨uploadInputPath env r, uploadOutputPath env r, r.email, r.pages_mode,
                 r.custom_pages, uploadDpi r,
                 r.do_ocr, r.add_page_numbers, r.compress, r.remove_security⟩)
    else
      (.err 400 (str "Invalid file type. Only PDF files are allowed."), rl.2, reg, none)

def statusStr : JStat → Pstr
  | .queued => str "queued"
  | .processing => str "processing"
  | .completed => str "completed"
  | .failed => str "failed"

/-- `job_status` (lines 416-440); `validU` models `uuid.UUID(job_id)`
parsing. -/
def job_status (validU : Pstr → Bool) (reg : Registry) (jid : Pstr) : JsonResp :=
  if !validU jid then .err 400 (str "Invalid job ID")
  else
    match lookupReg reg jid with
    | none => .err 404 (str "Job not found")
    | some job =>
      .statusResp job.status (some job.filename) (job.progress.getD [])
        (if job.status = .failed ∧ job.error.isSome then job.error else none)

/-- `download_file` (lines 442-473); `absp` models `os.path.abspath`,
`fexists` models `os.path.exists`.  A missing `output_path` key would raise
`KeyError` (Flask then answers 500); it is present on every record
`upload_file` creates. -/
def download_file (validU : Pstr → Bool) (absp : Pstr → Pstr)
    (fexists : Pstr → Bool) (reg : Registry) (jid : Pstr) : JsonResp :=
  if !validU jid then .err 400 (str "Invalid job ID")
  else
    match lookupReg reg jid with
    | none => .err 404 (str "Job not found")
    | some job =>
      if job.status ≠ .completed then
        .err 400 (str "Job status: " ++ statusStr job.status)
      else
        match job.output_path with
        | none => .err 500 (str "KeyError: output_path")
        | some output_path =>
          if !(absp UPLOAD_FOLDER).isPrefixOf (absp output_path) then
            .err 403 (str "Invalid file path")
          else if !fexists output_path then
            .err 404 (str "File not found")
          else
            .fileResp output_path job.filename

/-- C9: a well-formed id that was never created gets a distinct 404
"not found" error from `status` (not any job-state payload, in particular
not a `failed` one), and a `download` on an existing, not-yet-completed job
gets a 400 "not ready" error carrying the job's current state. -/
theorem status_notfound_download_notready (validU : Pstr → Bool) (absp : Pstr → Pstr)
    (fexists : Pstr → Bool) (reg : Registry) (jid1 jid2 : Pstr) (job : Job)
    (hv1 : validU jid1 = true) (hv2 : validU jid2 = true)
    (h1 : lookupReg reg jid1 = none)
    (h2 : lookupReg reg jid2 = some job)
    (h3 : job.status ≠ JStat.completed) :
    job_status validU reg jid1 = .err 404 (str "Job not found")
    ∧ (∀ s f p e, job_status validU reg jid1 ≠ .statusResp s f p e)
    ∧ download_file validU absp fexists reg jid2
        = .err 400 (str "Job status: " ++ statusStr job.status) := by
  refine ⟨?_, ?_, ?_⟩
  · rw [job_status, hv1]
    simp [h1]
  · intro s f p e
    rw [job_status, hv1]
    simp [h1]
  · rw [download_file, hv2]
    simp [h2, h3]

theorem status_notfound_download_notready_witness :
    job_status (fun _ => true)
        [(str "aa", ⟨str "fixed_doc.pdf", [], JStat.queued,
          some (str "/tmp/pdf-uploads/aa_fixed_doc.pdf"), none, none, false⟩)] (str "bb")
      = .err 404 (str "Job not found")
    ∧ (∀ s f p e, job_status (fun _ => true)
        [(str "aa", ⟨str "fixed_doc.pdf", [], JStat.queued,
          some (str "/tmp/pdf-uploads/aa_fixed_doc.pdf"), none, none, false⟩)] (str "bb")
        ≠ .statusResp s f p e)
    ∧ download_file (fun _ => true) (fun p => p) (fun _ => true)
        [(str "aa", ⟨str "fixed_doc.pdf", [], JStat.queued,
          some (str "/tmp/pdf-uploads/aa_fixed_doc.pdf"), none, none, false⟩)] (str "aa")
        = .err 400 (str "Job status: "
            ++ statusStr (⟨str "fixed_doc.pdf", [], JStat.queued,
              some (str "/tmp/pdf-uploads/aa_fixed_doc.pdf"), none, none, false⟩ : Job).status) :=
  status_notfound_download_notready (fun _ => true) (fun p => p) (fun _ => true)
    _ (str "bb") (str "aa") _ rfl rfl (by decide) (by decide) (by decide)

/-- C7 counterexample: a freshly created job record already carries the
result location while its state is still `queued` — refuting "the result
location is set if and only if the Job's state is Completed / absent in
states Queued, Processing, Failed, recorded atomically with the transition
into Completed". -/
theorem resultLocation_set_while_queued :
    (upload_file ⟨fun f => f, fun p => p, str "j1", 0⟩ [] []
       ⟨str "1.2.3.4", [], str "all", [], str "600", false, false, false, false,
        true, str "doc.pdf", 100⟩).2.2.1
      = [(str "j1", ⟨str "fixed_doc.pdf", [], JStat.queued,
          some (str "/tmp/pdf-uploads/j1_fixed_doc.pdf"), none, none, false⟩)] := by
  decide

theorem outputWrites_nil_foldl (j : Job) :
    ∀ evs : List Ev, outputWrites evs = [] →
      (evs.foldl applyEv j).output_path = j.output_path := by
  intro evs
  induction evs generalizing j with
  | nil => intro _; rfl
  | cons e evs ih =>
    intro h
    rw [outputWrites, List.filterMap_cons] at h
    match e with
    | .wstatus s => exact ih _ h
    | .wprogress p => exact ih _ h
    | .werror m => exact ih _ h
    | .wcompletedAt => exact ih _ h
    | .woutputPath p => simp at h
    | .runStep n args => exact ih _ h
    | .rmFile p => exact ih _ h
    | .moveFile a b => exact ih _ h
    | .sendEmail ok => exact ih _ h

theorem outputWrites_handlerEvs (c : Cfg) (m : Option Pstr) :
    outputWrites (handlerEvs c m) = [] := by
  match m with
  | none => rfl
  | some msg =>
    rw [handlerEvs]
    by_cases hem : c.email ≠ []
    · rw [if_pos hem]; simp [outputWrites]
    · rw [if_neg hem]; simp [outputWrites]

theorem outputWrites_ite (b : Prop) [Decidable b] (x y : List Ev) :
    outputWrites (if b then x else y) = if b then outputWrites x else outputWrites y :=
  apply_ite _ _ _ _

theorem process_pdf_async_outputWrites (c : Cfg) (o : Orc) :
    outputWrites (process_pdf_async c o) = [] := by
  obtain ⟨hout, _⟩ := asyncBody_shape c o
  rw [process_pdf_async, bodyPlusHandler]
  rw [outputWrites_append, outputWrites_ite]
  rw [outputWrites_append, hout, outputWrites_handlerEvs]
  simp [outputWrites]

/-- If `download_file` serves an artifact, the job exists, is completed, and
the served path is exactly its recorded output path. -/
theorem download_file_serves (validU : Pstr → Bool) (absp : Pstr → Pstr)
    (fexists : Pstr → Bool) (reg : Registry) (jid p dn : Pstr)
    (h : download_file validU absp fexists reg jid = .fileResp p dn) :
    ∃ job, lookupReg reg jid = some job ∧ job.status = JStat.completed
      ∧ job.output_path = some p
      ∧ (absp UPLOAD_FOLDER).isPrefixOf (absp p) = true := by
  rw [download_file] at h
  split at h
  · exact absurd h (by simp)
  · split at h
    · exact absurd h (by simp)
    · rename_i job hl
      split at h
      · exact absurd h (by simp)
      · rename_i hst
        rw [not_not] at hst
        split at h
        · exact absurd h (by simp)
        · rename_i op hop
          split at h
          · exact absurd h (by simp)
          · rename_i hpre
            split at h
            · exact absurd h (by simp)
            · injection h with h1 h2
              subst h1
              have hpre2 : (absp UPLOAD_FOLDER).isPrefixOf (absp op) = true := by
                simpa using hpre
              exact ⟨job, hl, hst, hop, hpre2⟩

/-- Every `upload_file` call either returns an error leaving the registry
unchanged and spawning nothing, or creates exactly one `queued` job (with
its output path already recorded) and spawns the worker; in the success
case every validation passed. -/
theorem upload_file_shape (env : UpEnv) (st : RL) (reg : Registry) (r : UpReq) :
    (∃ code msg, upload_file env st reg r
       = (.err code msg, (check_rate_limit st env.now r.ip).2, reg, none))
    ∨ (upload_file env st reg r
       = (.ok env.job_id (str "fixed_" ++ uploadFname env r),
          (check_rate_limit st env.now r.ip).2,
          reg ++ [(env.job_id, ⟨str "fixed_" ++ uploadFname env r, r.email, JStat.queued,
            some (uploadOutputPath env r), none, none, false⟩)],
          some ⟨uploadInputPath env r, uploadOutputPath env r, r.email, r.pages_mode,
                r.custom_pages, uploadDpi r,
                r.do_ocr, r.add_page_numbers, r.compress, r.remove_security⟩)
        ∧ (check_rate_limit st env.now r.ip).1 = true
        ∧ (!r.email.isEmpty && !validate_email r.email) = false
        ∧ r.hasFile = true
        ∧ r.filename.isEmpty = false
        ∧ allowed_file r.filename = true
        ∧ ¬ MAX_FILE_SIZE < r.fileSize
        ∧ r.fileSize ≠ 0
        ∧ ¬ MAX_FILENAME_LENGTH < r.filename.length) := by
  rw [upload_file]
  by_cases hb1 : (check_rate_limit st env.now r.ip).1
  · simp only [hb1, Bool.not_true, Bool.false_eq_true, if_false]
    by_cases hb2 : (!r.email.isEmpty && !validate_email r.email) = true
    · left
      exact ⟨400, str "Invalid email address format", by simp [hb2]⟩
    · rw [Bool.not_eq_true] at hb2
      by_cases hb3 : r.hasFile
      · by_cases hb4 : r.filename.isEmpty
        · left
          exact ⟨400, str "No file selected", by simp [hb2, hb3, hb4]⟩
        · by_cases hb5 : allowed_file r.filename
          · by_cases hb6 : MAX_FILE_SIZE < r.fileSize
            · left
              exact ⟨400, str "File size exceeds 100MB limit",
                by simp [hb2, hb3, hb4, hb5, hb6]⟩
            · by_cases hb7 : r.fileSize = 0
              · left
                exact ⟨400, str "File is empty", by simp [hb2, hb3, hb4, hb5, hb6, hb7]⟩
              · by_cases hb8 : MAX_FILENAME_LENGTH < r.filename.length
                · left
                  exact ⟨400, str "Filename is too long",
                    by simp [hb2, hb3, hb4, hb5, hb6, hb7, hb8]⟩
                · by_cases hb9 : (env.absp UPLOAD_FOLDER).isPrefixOf (uploadInputPath env r)
                  · by_cases hb10 : (env.absp UPLOAD_FOLDER).isPrefixOf (uploadOutputPath env r)
                    · right
                      refine ⟨by simp [hb2, hb3, hb4, hb5, hb6, hb7, hb8, hb9, hb10],
                        ?_, hb2, hb3, ?_, hb5, hb6, hb7, hb8⟩
                      · simp [hb1]
                      simp only [Bool.not_eq_true] at hb4
                      exact hb4
                    · left
                      exact ⟨400, str "Invalid file path",
                        by simp [hb2, hb3, hb4, hb5, hb6, hb7, hb8, hb9, hb10]⟩
                  · left
                    exact ⟨400, str "Invalid file path",
                      by simp [hb2, hb3, hb4, hb5, hb6, hb7, hb8, hb9]⟩
          · left
            exact ⟨400, str "Invalid file type. Only PDF files are allowed.",
              by simp [hb2, hb3, hb4, hb5]⟩
      · left
        exact ⟨400, str "No file provided", by simp [hb2, hb3]⟩
  · left
    refine ⟨429, str "Too many upload attempts. Please try again later.", ?_⟩
    simp only [Bool.not_eq_true] at hb1
    simp [hb1]

/-- C7 amended: the result location is recorded exactly once, at job
creation (state `queued`), and is never mutated afterward — the worker's
record writes leave it unchanged — and the artifact is served via download
only when the state is `completed`. -/
theorem resultLocation_once (env : UpEnv) (st : RL) (reg : Registry) (r : UpReq)
    (j : Job) (o : Orc) (c : Cfg) :
    (∀ e ∈ (upload_file env st reg r).2.2.1, e ∈ reg
      ∨ (e.2.status = JStat.queued ∧ e.2.output_path ≠ none))
    ∧ ((process_pdf_async c o).foldl applyEv j).output_path = j.output_path
    ∧ (∀ validU absp fexists jid p dn,
        download_file validU absp fexists reg jid = .fileResp p dn →
        ∃ job, lookupReg reg jid = some job ∧ job.status = JStat.completed
          ∧ job.output_path = some p) := by
  refine ⟨?_, ?_, ?_⟩
  · intro e he
    rcases upload_file_shape env st reg r with ⟨code, msg, heq⟩ | ⟨heq, _⟩
    · rw [heq] at he
      exact Or.inl he
    · rw [heq] at he
      rcases List.mem_append.mp he with h | h
      · exact Or.inl h
      · right
        simp only [List.mem_singleton] at h
        subst h
        exact ⟨rfl, Option.some_ne_none _⟩
  · exact outputWrites_nil_foldl j _ (process_pdf_async_outputWrites c o)
  · intro validU absp fexists jid p dn h
    obtain ⟨job, hl, hst, hop, _⟩ := download_file_serves validU absp fexists reg jid p dn h
    exact ⟨job, hl, hst, hop⟩

theorem resultLocation_once_witness :
    ((∀ e ∈ (upload_file ⟨fun f => f, fun p => p, str "j1", 0⟩ [] []
        ⟨str "1.2.3.4", [], str "all", [], str "600", false, false, false, false,
         true, str "doc.pdf", 100⟩).2.2.1, e ∈ ([] : Registry)
      ∨ (e.2.status = JStat.queued ∧ e.2.output_path ≠ none))
    ∧ ((process_pdf_async
         ⟨str "/tmp/pdf-uploads/j1_doc.pdf", str "/tmp/pdf-uploads/j1_fixed_doc.pdf",
          [], str "all", [], str "600", false, false, false, false⟩
         ⟨fun _ => false, false, false, 1, str "e", false, false, false, false,
          str "boom", true⟩).foldl applyEv
        ⟨str "fixed_doc.pdf", [], JStat.queued,
         some (str "/tmp/pdf-uploads/j1_fixed_doc.pdf"), none, none, false⟩).output_path
      = (⟨str "fixed_doc.pdf", [], JStat.queued,
         some (str "/tmp/pdf-uploads/j1_fixed_doc.pdf"), none, none, false⟩ : Job).output_path
    ∧ (∀ validU absp fexists jid p dn,
        download_file validU absp fexists [] jid = .fileResp p dn →
        ∃ job, lookupReg [] jid = some job ∧ job.status = JStat.completed
          ∧ job.output_path = some p)) :=
  resultLocation_once ⟨fun f => f, fun p => p, str "j1", 0⟩ [] []
    ⟨str "1.2.3.4", [], str "all", [], str "600", false, false, false, false,
     true, str "doc.pdf", 100⟩ _ _ _

/-- C6 counterexample: a submission that fails validation (malformed notify
address) returns a structured error and creates no Job — but the rate-limit
slot IS consumed: `check_rate_limit` runs (and appends the timestamp) before
any validation, so the state after the failed attempt is `[(ip, [now])]`,
not the empty state the claim requires. -/
theorem validation_failure_consumes_slot :
    upload_file ⟨fun f => f, fun p => p, str "j1", 0⟩ [] []
       ⟨str "1.2.3.4", str "bademail", str "all", [], str "600",
        false, false, false, false, true, str "doc.pdf", 100⟩
      = (.err 400 (str "Invalid email address format"),
         [(str "1.2.3.4", [0])], [], none) := by
  decide

/-- C6 amended: a submission admitted by the rate limiter that then fails
validation returns a structured error, creates no Job and spawns no worker —
but its rate-limit slot remains consumed: the post-call state is exactly the
post-admission state, in which the attempt timestamp has been recorded for
the submitter. -/
theorem validation_failure_no_job (env : UpEnv) (st : RL) (reg : Registry) (r : UpReq)
    (hadm : (check_rate_limit st env.now r.ip).1 = true)
    (hval : ((!r.email.isEmpty && !validate_email r.email)
          || !r.hasFile || r.filename.isEmpty || !allowed_file r.filename
          || decide (MAX_FILE_SIZE < r.fileSize) || decide (r.fileSize = 0)
          || decide (MAX_FILENAME_LENGTH < r.filename.length)) = true) :
    (∃ code msg, (upload_file env st reg r).1 = .err code msg)
    ∧ (upload_file env st reg r).2.2.1 = reg
    ∧ (upload_file env st reg r).2.2.2 = none
    ∧ (upload_file env st reg r).2.1 = (check_rate_limit st env.now r.ip).2
    ∧ lookupRL (upload_file env st reg r).2.1 r.ip
        = lookupRL (pruneRL st env.now) r.ip ++ [env.now] := by
  have hstate : (check_rate_limit st env.now r.ip).2
      = setRL (pruneRL st env.now) r.ip
          (lookupRL (pruneRL st env.now) r.ip ++ [env.now]) := by
    rw [check_rate_limit] at hadm ⊢
    by_cases hd : MAX_UPLOADS_PER_IP ≤ (lookupRL (pruneRL st env.now) r.ip).length
    · rw [if_pos hd] at hadm
      exact absurd hadm (by simp)
    · rw [if_neg hd]
  rcases upload_file_shape env st reg r with ⟨code, msg, heq⟩ | ⟨heq, _, h2, h3, h4, h5, h6, h7, h8⟩
  · refine ⟨⟨code, msg, by rw [heq]⟩, by rw [heq], by rw [heq], by rw [heq], ?_⟩
    rw [heq]
    simp only
    rw [hstate, lookupRL_setRL_self]
  · exfalso
    rw [h2, h3, h4, h5] at hval
    simp only [Bool.false_or, Bool.not_true, Bool.or_eq_true, decide_eq_true_eq,
      Bool.false_eq_true, false_or, or_false] at hval
    rcases hval with (hc | hc) | hc
    · exact h6 hc
    · exact h7 hc
    · exact h8 hc

theorem validation_failure_no_job_witness :
    ((check_rate_limit [] 0 (str "1.2.3.4")).1 = true)
    ∧ (((!(str "bademail" : Pstr).isEmpty && !validate_email (str "bademail"))
          || !true || (str "doc.pdf" : Pstr).isEmpty || !allowed_file (str "doc.pdf")
          || decide (MAX_FILE_SIZE < 100) || decide ((100 : Nat) = 0)
          || decide (MAX_FILENAME_LENGTH < (str "doc.pdf" : Pstr).length)) = true)
    ∧ ((∃ code msg, (upload_file ⟨fun f => f, fun p => p, str "j1", 0⟩ [] []
         ⟨str "1.2.3.4", str "bademail", str "all", [], str "600",
          false, false, false, false, true, str "doc.pdf", 100⟩).1 = .err code msg)
    ∧ (upload_file ⟨fun f => f, fun p => p, str "j1", 0⟩ [] []
         ⟨str "1.2.3.4", str "bademail", str "all", [], str "600",
          false, false, false, false, true, str "doc.pdf", 100⟩).2.2.1 = []
    ∧ (upload_file ⟨fun f => f, fun p => p, str "j1", 0⟩ [] []
         ⟨str "1.2.3.4", str "bademail", str "all", [], str "600",
          false, false, false, false, true, str "doc.pdf", 100⟩).2.2.2 = none
    ∧ (upload_file ⟨fun f => f, fun p => p, str "j1", 0⟩ [] []
         ⟨str "1.2.3.4", str "bademail", str "all", [], str "600",
          false, false, false, false, true, str "doc.pdf", 100⟩).2.1
        = (check_rate_limit [] 0 (str "1.2.3.4")).2
    ∧ lookupRL (upload_file ⟨fun f => f, fun p => p, str "j1", 0⟩ [] []
         ⟨str "1.2.3.4", str "bademail", str "all", [], str "600",
          false, false, false, false, true, str "doc.pdf", 100⟩).2.1 (str "1.2.3.4")
        = lookupRL (pruneRL [] 0) (str "1.2.3.4") ++ [0]) :=
  ⟨by decide, by decide,
   validation_failure_no_job ⟨fun f => f, fun p => p, str "j1", 0⟩ [] []
     ⟨str "1.2.3.4", str "bademail", str "all", [], str "600",
      false, false, false, false, true, str "doc.pdf", 100⟩ (by decide) (by decide)⟩

/-- Registry invariant: every recorded result location is a path directly
under the upload folder, already in resolved (normal absolute) form. -/
def RegWithinRoot (absp : Pstr → Pstr) (reg : Registry) : Prop :=
  ∀ jid job, lookupReg reg jid = some job → ∀ p, job.output_path = some p →
    (∃ name : Pstr, p = UPLOAD_FOLDER ++ str "/" ++ name) ∧ absp p = p

theorem lookupReg_append_cases (reg : Registry) (k : Pstr) (j : Job) (jid : Pstr)
    (job : Job) (h : lookupReg (reg ++ [(k, j)]) jid = some job) :
    lookupReg reg jid = some job ∨ (k = jid ∧ job = j) := by
  induction reg with
  | nil =>
    rw [lookupReg] at h
    simp only [List.nil_append, List.find?] at h
    by_cases hk : k = jid
    · right
      simp only [hk, decide_True, Option.map_some'] at h
      injection h with h1
      exact ⟨hk, h1.symm⟩
    · simp only [hk, decide_False] at h
      exact absurd h (by simp)
  | cons e reg' ih =>
    rw [lookupReg] at h ⊢
    rw [List.cons_append, List.find?] at h
    by_cases he : e.1 = jid
    · simp only [he, decide_True, Option.map_some'] at h ⊢
      rw [List.find?]
      simp only [he, decide_True, Option.map_some']
      exact Or.inl h
    · simp only [he, decide_False] at h ⊢
      rw [List.find?]
      simp only [he, decide_False]
      exact ih h

theorem noSlash_uploadFname (env : UpEnv) (r : UpReq)
    (hsec : ∀ f, ('/' : Char) ∉ env.secure_filename f) :
    ('/' : Char) ∉ uploadFname env r := by
  rw [uploadFname]
  intro hmem
  by_cases h0 : (env.secure_filename r.filename).isEmpty
  · simp only [h0, if_true] at hmem
    by_cases h1 : endsPdfLower (str "document.pdf")
    · simp [h1] at hmem
      exact absurd hmem (by decide)
    · simp only [Bool.not_eq_true] at h1
      simp [h1] at hmem
      rcases hmem with hm | hm
      · exact absurd hm (by decide)
      · exact absurd hm (by decide)
  · simp only [Bool.not_eq_true] at h0
    simp only [h0, Bool.false_eq_true, if_false] at hmem
    by_cases h1 : endsPdfLower (env.secure_filename r.filename)
    · simp [h1] at hmem
      exact hsec r.filename hmem
    · simp only [Bool.not_eq_true] at h1
      simp [h1] at hmem
      rcases hmem with hm | hm
      · exact hsec r.filename hm
      · exact absurd hm (by decide)

/-- C8: downloads cannot escape the managed storage root.  Under the
registry invariant (every stored result location is a resolved path directly
under the upload folder — which `upload_file` maintains, third conjunct),
every artifact ever served lies within the upload folder; and any handle
whose resolution fails the root-prefix check is rejected with a 403 error. -/
theorem download_within_root (validU : Pstr → Bool) (absp : Pstr → Pstr)
    (fexists : Pstr → Bool) (reg : Registry)
    (hreg : RegWithinRoot absp reg) :
    (∀ jid p dn, download_file validU absp fexists reg jid = .fileResp p dn →
      ∃ name : Pstr, p = UPLOAD_FOLDER ++ str "/" ++ name)
    ∧ (∀ jid job p, validU jid = true → lookupReg reg jid = some job →
        job.status = JStat.completed → job.output_path = some p →
        (absp UPLOAD_FOLDER).isPrefixOf (absp p) = false →
        download_file validU absp fexists reg jid = .err 403 (str "Invalid file path"))
    ∧ (∀ (env : UpEnv) (st : RL) (r : UpReq), env.absp = absp →
        ('/' : Char) ∉ env.job_id →
        (∀ f, ('/' : Char) ∉ env.secure_filename f) →
        (∀ name : Pstr, ('/' : Char) ∉ name → ('_' : Char) ∈ name →
          absp (UPLOAD_FOLDER ++ str "/" ++ name) = UPLOAD_FOLDER ++ str "/" ++ name) →
        RegWithinRoot absp (upload_file env st reg r).2.2.1) := by
  refine ⟨?_, ?_, ?_⟩
  · intro jid p dn h
    obtain ⟨job, hl, _, hop, _⟩ := download_file_serves validU absp fexists reg jid p dn h
    exact (hreg jid job hl p hop).1
  · intro jid job p hv hl hst hop hpre
    rw [download_file, hv]
    simp [hl, hst, hop, hpre]
  · intro env st r habs hjid hsec hroot
    rcases upload_file_shape env st reg r with ⟨code, msg, heq⟩ | ⟨heq, _⟩
    · rw [heq]
      exact hreg
    · rw [heq]
      dsimp only
      intro jid job hl p hop
      rcases lookupReg_append_cases reg env.job_id _ jid job hl with hold | ⟨hk, hjob⟩
      · exact hreg jid job hold p hop
      · subst hjob
        simp only at hop
        injection hop with hop
        subst hop
        have hfn : ('/' : Char) ∉ uploadFname env r := noSlash_uploadFname env r hsec
        have hname : ('/' : Char) ∉ env.job_id ++ (str "_fixed_" ++ uploadFname env r) := by
          intro hm
          rcases List.mem_append.mp hm with hm | hm
          · exact hjid hm
          · rcases List.mem_append.mp hm with hm | hm
            · exact absurd hm (by decide)
            · exact hfn hm
        have hund : ('_' : Char) ∈ env.job_id ++ (str "_fixed_" ++ uploadFname env r) :=
          List.mem_append.mpr (Or.inr (List.mem_append.mpr (Or.inl (by decide))))
        have hassoc : UPLOAD_FOLDER ++ str "/" ++ env.job_id ++ str "_fixed_"
              ++ uploadFname env r
            = UPLOAD_FOLDER ++ str "/"
              ++ (env.job_id ++ (str "_fixed_" ++ uploadFname env r)) := by
          simp [List.append_assoc]
        have hfix := hroot (env.job_id ++ (str "_fixed_" ++ uploadFname env r)) hname hund
        constructor
        · refine ⟨env.job_id ++ (str "_fixed_" ++ uploadFname env r), ?_⟩
          rw [uploadOutputPath, habs, hassoc, hfix]
        · rw [uploadOutputPath, habs, hassoc, hfix, hfix]

theorem download_within_root_witness :
    RegWithinRoot (fun p => p)
        [(str "aa", ⟨str "fixed_doc.pdf", [], JStat.completed,
          some (str "/tmp/pdf-uploads/aa_fixed_doc.pdf"), none, none, false⟩)]
    ∧ ((∀ jid p dn, download_file (fun _ => true) (fun p => p) (fun _ => true)
        [(str "aa", ⟨str "fixed_doc.pdf", [], JStat.completed,
          some (str "/tmp/pdf-uploads/aa_fixed_doc.pdf"), none, none, false⟩)] jid
          = .fileResp p dn →
      ∃ name : Pstr, p = UPLOAD_FOLDER ++ str "/" ++ name)
    ∧ (∀ jid job p, (fun _ => true) jid = true →
        lookupReg [(str "aa", ⟨str "fixed_doc.pdf", [], JStat.completed,
          some (str "/tmp/pdf-uploads/aa_fixed_doc.pdf"), none, none, false⟩)] jid
          = some job →
        job.status = JStat.completed → job.output_path = some p →
        (((fun p => p) : Pstr → Pstr) UPLOAD_FOLDER).isPrefixOf
            (((fun p => p) : Pstr → Pstr) p) = false →
        download_file (fun _ => true) (fun p => p) (fun _ => true)
          [(str "aa", ⟨str "fixed_doc.pdf", [], JStat.completed,
            some (str "/tmp/pdf-uploads/aa_fixed_doc.pdf"), none, none, false⟩)] jid
          = .err 403 (str "Invalid file path"))
    ∧ (∀ (env : UpEnv) (st : RL) (r : UpReq), env.absp = (fun p => p) →
        ('/' : Char) ∉ env.job_id →
        (∀ f, ('/' : Char) ∉ env.secure_filename f) →
        (∀ name : Pstr, ('/' : Char) ∉ name → ('_' : Char) ∈ name →
          ((fun p => p) : Pstr → Pstr) (UPLOAD_FOLDER ++ str "/" ++ name)
            = UPLOAD_FOLDER ++ str "/" ++ name) →
        RegWithinRoot (fun p => p)
          (upload_file env st
            [(str "aa", ⟨str "fixed_doc.pdf", [], JStat.completed,
              some (str "/tmp/pdf-uploads/aa_fixed_doc.pdf"), none, none, false⟩)] r).2.2.1)) :=
  ⟨by
    intro jid job hl p hop
    have : jid = str "aa" ∧ job = ⟨str "fixed_doc.pdf", [], JStat.completed,
        some (str "/tmp/pdf-uploads/aa_fixed_doc.pdf"), none, none, false⟩ := by
      rw [lookupReg, List.find?] at hl
      by_cases hk : jid = str "aa"
      · refine ⟨hk, ?_⟩
        simp only [hk, decide_True, Option.map_some'] at hl
        simp at hl
        exact hl.symm
      · simp only [show decide ((str "aa" : Pstr) = jid) = false by
          simp; exact fun hc => hk hc.symm] at hl
        exact absurd hl (by simp [lookupReg])
    obtain ⟨h1, h2⟩ := this
    subst h1; subst h2
    simp only at hop
    injection hop with hop
    subst hop
    exact ⟨⟨str "aa_fixed_doc.pdf", by decide⟩, rfl⟩,
   download_within_root (fun _ => true) (fun p => p) (fun _ => true) _ (by
    intro jid job hl p hop
    have : jid = str "aa" ∧ job = ⟨str "fixed_doc.pdf", [], JStat.completed,
        some (str "/tmp/pdf-uploads/aa_fixed_doc.pdf"), none, none, false⟩ := by
      rw [lookupReg, List.find?] at hl
      by_cases hk : jid = str "aa"
      · refine ⟨hk, ?_⟩
        simp only [hk, decide_True, Option.map_some'] at hl
        simp at hl
        exact hl.symm
      · simp only [show decide ((str "aa" : Pstr) = jid) = false by
          simp; exact fun hc => hk hc.symm] at hl
        exact absurd hl (by simp [lookupReg])
    obtain ⟨h1, h2⟩ := this
    subst h1; subst h2
    simp only at hop
    injection hop with hop
    subst hop
    exact ⟨⟨str "aa_fixed_doc.pdf", by decide⟩, rfl⟩)⟩

/-! ## The legacy synchronous handler (app.py lines 44-228) -/

/-- The pipeline-relevant values of one `app.py` upload (its `unique_id`,
sanitized filename and options); `app.config['UPLOAD_FOLDER']` is a
`tempfile.mkdtemp()` directory. -/
structure SCfg where
  upload_dir : Pstr
  unique_id : Pstr
  filename : Pstr
  pages_mode : Pstr
  custom_pages : Pstr
  dpi : Pstr
  do_ocr : Bool
  add_page_numbers : Bool
  compress : Bool
  remove_security : Bool

/-- `input_path` (app.py line 57). -/
def SCfg.input_path (c : SCfg) : Pstr :=
  c.upload_dir ++ str "/" ++ c.unique_id ++ str "_" ++ c.filename

/-- `fixed_path` (app.py line 102) — the fallback output requested from the
mandatory script. -/
def SCfg.fixed_path (c : SCfg) : Pstr :=
  c.upload_dir ++ str "/" ++ c.unique_id ++ str "_fixed.pdf"

/-- The final output path (app.py line 207): `{unique_id}_{output_filename}`
with `output_filename = "fixed_" + filename`. -/
def SCfg.final_path (c : SCfg) : Pstr :=
  c.upload_dir ++ str "/" ++ c.unique_id ++ str "_fixed_" ++ c.filename

def syncFixCmdArgs (c : SCfg) (cur : Pstr) : List Pstr :=
  [cur, str "--dpi", c.dpi, str "--pages", pagesArg c.pages_mode c.custom_pages]

inductive SyncOut
  | go (s : St)
  | halt (evs : List Ev) (resp : JsonResp)
  | exc (evs : List Ev) (msg : Pstr)

/-- Step 1 (app.py lines 81-99): identical security removal. -/
def syncStep1 (c : SCfg) (o : Orc) (s : St) : SyncOut :=
  if c.remove_security then
    let evs := s.evs ++ [.runStep .unlock [s.cur]]
    if o.unlockRaises then .exc evs o.excMsg
    else if o.ex (unlockedName s.cur) then
      .go ⟨evs ++ (if s.cur ≠ c.input_path then [.rmFile s.cur] else []),
           unlockedName s.cur⟩
    else .go ⟨evs, s.cur⟩
  else .go s

/-- Step 2 (app.py lines 101-148): the mandatory normalization.  Unlike the
async worker it cleans up the intermediate and the input before returning an
error, and its fallback output is `fixed_path`, not the final output path. -/
def syncStep2 (c : SCfg) (o : Orc) (s : St) : SyncOut :=
  let evs := s.evs ++ [.runStep .fixfonts (syncFixCmdArgs c s.cur)]
  if o.fixRaises then .exc evs o.excMsg
  else if o.fixRc ≠ 0 then
    .halt (evs ++ (if s.cur ≠ c.input_path then [.rmFile s.cur] else [])
           ++ [.rmFile c.input_path])
      (.err 500 (str "PDF processing failed: " ++ o.fixStderr))
  else if o.ex (fixedName s.cur) then
    .go ⟨evs ++ (if s.cur ≠ c.input_path then [.rmFile s.cur] else []), fixedName s.cur⟩
  else if o.ex c.fixed_path then
    .go ⟨evs ++ (if s.cur ≠ c.input_path then [.rmFile s.cur] else []), c.fixed_path⟩
  else
    .halt (evs ++ (if s.cur ≠ c.input_path then [.rmFile s.cur] else [])
           ++ [.rmFile c.input_path])
      (.err 500 (str "Output file was not created"))

/-- Step 3 (app.py lines 150-167): OCR. -/
def syncStep3 (c : SCfg) (o : Orc) (s : St) : SyncOut :=
  if c.do_ocr then
    let evs := s.evs ++ [.runStep .ocr [s.cur, str "--full-ocr"]]
    if o.ocrRaises then .exc evs o.excMsg
    else if o.ex (ocrName s.cur) then .go ⟨evs ++ [.rmFile s.cur], ocrName s.cur⟩
    else .go ⟨evs, s.cur⟩
  else .go s

/-- Step 4 (app.py lines 169-186): page numbers. -/
def syncStep4 (c : SCfg) (o : Orc) (s : St) : SyncOut :=
  if c.add_page_numbers then
    let evs := s.evs ++ [.runStep .pagenums [s.cur]]
    if o.pagenumsRaises then .exc evs o.excMsg
    else if o.ex (numberedName s.cur) then .go ⟨evs ++ [.rmFile s.cur], numberedName s.cur⟩
    else .go ⟨evs, s.cur⟩
  else .go s

/-- Step 5 (app.py lines 188-204): compression. -/
def syncStep5 (c : SCfg) (o : Orc) (s : St) : SyncOut :=
  if c.compress then
    let evs := s.evs ++ [.runStep .compresspdf [s.cur, str "ebook"]]
    if o.compressRaises then .exc evs o.excMsg
    else if o.ex (compressedName s.cur) then .go ⟨evs ++ [.rmFile s.cur], compressedName s.cur⟩
    else .go ⟨evs, s.cur⟩
  else .go s

inductive SyncRes
  | done (evs : List Ev) (resp : JsonResp)
  | exc (evs : List Ev) (msg : Pstr)

/-- The `try` block of app.py's `upload_file` (lines 77-220). -/
def syncBody (c : SCfg) (o : Orc) : SyncRes :=
  match syncStep1 c o ⟨[], c.input_path⟩ with
  | .exc evs m => .exc evs m
  | .halt evs r => .done evs r
  | .go s1 =>
    match syncStep2 c o s1 with
    | .exc evs m => .exc evs m
    | .halt evs r => .done evs r
    | .go s2 =>
      match syncStep3 c o s2 with
      | .exc evs m => .exc evs m
      | .halt evs r => .done evs r
      | .go s3 =>
        match syncStep4 c o s3 with
        | .exc evs m => .exc evs m
        | .halt evs r => .done evs r
        | .go s4 =>
          match syncStep5 c o s4 with
          | .exc evs m => .exc evs m
          | .halt evs r => .done evs r
          | .go s5 =>
            let evs := s5.evs ++ [.moveFile s5.cur c.final_path]
            if o.moveRaises then .exc evs o.excMsg
            else
              .done (evs ++ (if o.inputOnDisk ∧ c.input_path ∉ rmPaths evs
                             then [.rmFile c.input_path] else []))
                (.ok c.unique_id (str "fixed_" ++ c.filename))

/-- app.py's `upload_file` pipeline with its `except` handler (lines
222-226): on an escaped exception, remove the input if it still exists and
answer 500. -/
def sync_run (c : SCfg) (o : Orc) : List Ev × JsonResp :=
  match syncBody c o with
  | .done evs r => (evs, r)
  | .exc evs m =>
    (evs ++ (if o.inputOnDisk ∧ c.input_path ∉ rmPaths evs
             then [.rmFile c.input_path] else []),
     .err 500 m)

/-- The external tool invocations with their full argument lists. -/
def toolCalls (evs : List Ev) : List (StepName × List Pstr) :=
  evs.filterMap fun e => match e with | .runStep n a => some (n, a) | _ => none

/-- The `shutil.move` calls. -/
def movesOf (evs : List Ev) : List (Pstr × Pstr) :=
  evs.filterMap fun e => match e with | .moveFile a b => some (a, b) | _ => none

/-- The async worker configuration equivalent to a sync-handler run
(same directory, id, filename, and options; `email` empty since app.py sends
no notifications). -/
def aCfgOf (sc : SCfg) : Cfg :=
  ⟨sc.input_path, sc.final_path, [], sc.pages_mode, sc.custom_pages, sc.dpi,
   sc.do_ocr, sc.add_page_numbers, sc.compress, sc.remove_security⟩

def syncUnlockEvs (c : SCfg) : List Ev :=
  if c.remove_security then [.runStep .unlock [c.input_path]] else []

theorem syncStep1_noraise (c : SCfg) (o : Orc) (h1 : o.unlockRaises = false) :
    syncStep1 c o ⟨[], c.input_path⟩ = .go ⟨syncUnlockEvs c, cur1val (aCfgOf c) o⟩ := by
  rw [syncStep1, syncUnlockEvs, cur1val]
  by_cases hrs : c.remove_security
  · by_cases hexu : o.ex (unlockedName c.input_path) = true
    · simp [h1, hrs, hexu, aCfgOf]
    · simp [h1, hrs, hexu, aCfgOf]
  · simp [hrs, aCfgOf]

theorem syncStep2_ok (c : SCfg) (o : Orc) (s : St) (h2 : o.fixRaises = false)
    (hrc : o.fixRc = 0) (hA : o.ex (fixedName s.cur) = true) :
    syncStep2 c o s
      = .go ⟨s.evs ++ [.runStep .fixfonts (syncFixCmdArgs c s.cur)]
             ++ (if s.cur ≠ c.input_path then [.rmFile s.cur] else []),
             fixedName s.cur⟩ := by
  rw [syncStep2]
  simp [h2, hrc, hA, List.append_assoc]

theorem syncStep2_failrc (c : SCfg) (o : Orc) (s : St) (h2 : o.fixRaises = false)
    (hrc : o.fixRc ≠ 0) :
    syncStep2 c o s
      = .halt (s.evs ++ [.runStep .fixfonts (syncFixCmdArgs c s.cur)]
               ++ ((if s.cur ≠ c.input_path then [.rmFile s.cur] else [])
                   ++ [.rmFile c.input_path]))
          (.err 500 (str "PDF processing failed: " ++ o.fixStderr)) := by
  rw [syncStep2]
  simp [h2, hrc, List.append_assoc]

def syncStep3Evs (c : SCfg) (o : Orc) (cur : Pstr) : List Ev :=
  if c.do_ocr
  then [.runStep .ocr [cur, str "--full-ocr"]]
       ++ (if o.ex (ocrName cur) = true then [.rmFile cur] else [])
  else []

theorem syncStep3_noraise (c : SCfg) (o : Orc) (s : St) (h : o.ocrRaises = false) :
    syncStep3 c o s = .go ⟨s.evs ++ syncStep3Evs c o s.cur, cur3sel (aCfgOf c) o s.cur⟩ := by
  rw [syncStep3, syncStep3Evs, cur3sel]
  by_cases hon : c.do_ocr
  · by_cases hex : o.ex (ocrName s.cur) = true
    · simp [h, hon, hex, aCfgOf, List.append_assoc]
    · simp [h, hon, hex, aCfgOf]
  · simp [hon, aCfgOf]

def syncStep4Evs (c : SCfg) (o : Orc) (cur : Pstr) : List Ev :=
  if c.add_page_numbers
  then [.runStep .pagenums [cur]]
       ++ (if o.ex (numberedName cur) = true then [.rmFile cur] else [])
  else []

theorem syncStep4_noraise (c : SCfg) (o : Orc) (s : St) (h : o.pagenumsRaises = false) :
    syncStep4 c o s = .go ⟨s.evs ++ syncStep4Evs c o s.cur, cur4sel (aCfgOf c) o s.cur⟩ := by
  rw [syncStep4, syncStep4Evs, cur4sel]
  by_cases hon : c.add_page_numbers
  · by_cases hex : o.ex (numberedName s.cur) = true
    · simp [h, hon, hex, aCfgOf, List.append_assoc]
    · simp [h, hon, hex, aCfgOf]
  · simp [hon, aCfgOf]

def syncStep5Evs (c : SCfg) (o : Orc) (cur : Pstr) : List Ev :=
  if c.compress
  then [.runStep .compresspdf [cur, str "ebook"]]
       ++ (if o.ex (compressedName cur) = true then [.rmFile cur] else [])
  else []

theorem syncStep5_noraise (c : SCfg) (o : Orc) (s : St) (h : o.compressRaises = false) :
    syncStep5 c o s = .go ⟨s.evs ++ syncStep5Evs c o s.cur, cur5sel (aCfgOf c) o s.cur⟩ := by
  rw [syncStep5, syncStep5Evs, cur5sel]
  by_cases hon : c.compress
  · by_cases hex : o.ex (compressedName s.cur) = true
    · simp [h, hon, hex, aCfgOf, List.append_assoc]
    · simp [h, hon, hex, aCfgOf]
  · simp [hon, aCfgOf]

/-- Full evaluation of an exception-free successful sync-handler run (the
`-FIXED` convention output of the mandatory step exists). -/
theorem syncBody_success (c : SCfg) (o : Orc) (hnr : NoRaise o) (hrc : o.fixRc = 0)
    (hA : o.ex (fixedName (cur1val (aCfgOf c) o)) = true) :
    syncBody c o = .done
      ((syncUnlockEvs c
        ++ ([.runStep .fixfonts (syncFixCmdArgs c (cur1val (aCfgOf c) o))]
            ++ (if cur1val (aCfgOf c) o ≠ c.input_path
                then [.rmFile (cur1val (aCfgOf c) o)] else []))
        ++ syncStep3Evs c o (cur2val (aCfgOf c) o)
        ++ syncStep4Evs c o (cur3val (aCfgOf c) o)
        ++ syncStep5Evs c o (cur4val (aCfgOf c) o)
        ++ [.moveFile (cur5val (aCfgOf c) o) c.final_path])
       ++ (if o.inputOnDisk ∧ c.input_path ∉ rmPaths
              (syncUnlockEvs c
               ++ ([.runStep .fixfonts (syncFixCmdArgs c (cur1val (aCfgOf c) o))]
                   ++ (if cur1val (aCfgOf c) o ≠ c.input_path
                       then [.rmFile (cur1val (aCfgOf c) o)] else []))
               ++ syncStep3Evs c o (cur2val (aCfgOf c) o)
               ++ syncStep4Evs c o (cur3val (aCfgOf c) o)
               ++ syncStep5Evs c o (cur4val (aCfgOf c) o)
               ++ [.moveFile (cur5val (aCfgOf c) o) c.final_path])
           then [.rmFile c.input_path] else []))
      (.ok c.unique_id (str "fixed_" ++ c.filename)) := by
  obtain ⟨hn1, hn2, hn3, hn4, hn5, hn6⟩ := hnr
  have hcur2 : cur2val (aCfgOf c) o = fixedName (cur1val (aCfgOf c) o) := by
    rw [cur2val, cur2sel, if_pos hA]
  rw [syncBody, syncStep1_noraise c o hn1]
  dsimp only
  rw [syncStep2_ok c o ⟨syncUnlockEvs c, cur1val (aCfgOf c) o⟩ hn2 hrc (by exact hA)]
  dsimp only
  rw [syncStep3_noraise c o _ hn3]
  dsimp only
  rw [syncStep4_noraise c o _ hn4]
  dsimp only
  rw [syncStep5_noraise c o _ hn5]
  dsimp only
  rw [if_neg (by simp [hn6])]
  simp only [← hcur2, cur3val, cur4val, cur5val, List.append_assoc]

/-- Full evaluation of an exception-free sync-handler run whose mandatory
step exits nonzero. -/
theorem syncBody_failrc (c : SCfg) (o : Orc) (hnr : NoRaise o) (hrc : o.fixRc ≠ 0) :
    syncBody c o = .done
      (syncUnlockEvs c
       ++ ([.runStep .fixfonts (syncFixCmdArgs c (cur1val (aCfgOf c) o))]
           ++ ((if cur1val (aCfgOf c) o ≠ c.input_path
                then [.rmFile (cur1val (aCfgOf c) o)] else [])
               ++ [.rmFile c.input_path])))
      (.err 500 (str "PDF processing failed: " ++ o.fixStderr)) := by
  obtain ⟨hn1, hn2, _, _, _, _⟩ := hnr
  rw [syncBody, syncStep1_noraise c o hn1]
  dsimp only
  rw [syncStep2_failrc c o ⟨syncUnlockEvs c, cur1val (aCfgOf c) o⟩ hn2 hrc]
  simp [List.append_assoc]

theorem toolCalls_append (a b : List Ev) :
    toolCalls (a ++ b) = toolCalls a ++ toolCalls b :=
  List.filterMap_append a b _

theorem toolCalls_ite (b : Prop) [Decidable b] (x y : List Ev) :
    toolCalls (if b then x else y) = if b then toolCalls x else toolCalls y :=
  apply_ite _ _ _ _

theorem movesOf_append (a b : List Ev) :
    movesOf (a ++ b) = movesOf a ++ movesOf b :=
  List.filterMap_append a b _

theorem movesOf_ite (b : Prop) [Decidable b] (x y : List Ev) :
    movesOf (if b then x else y) = if b then movesOf x else movesOf y :=
  apply_ite _ _ _ _

/-- C10 counterexample: with identical options, identical exit statuses and
an identical assignment of which files exist (only `{uid}_fixed.pdf`, the
legacy handler's fallback output, exists), app.py's handler completes and
produces a final artifact while app_async.py's worker fails with "Output
file was not created" — the two do not select the same artifact chain: their
mandatory-step fallback output paths differ (`{uid}_fixed.pdf` versus the
final output path `{uid}_fixed_{filename}`). -/
theorem sync_async_divergence :
    (sync_run ⟨str "/u", str "j", str "doc.pdf", str "all", [], str "600",
        false, false, false, false⟩
      ⟨fun p => p = str "/u/j_fixed.pdf", false, false, 0, [],
        false, false, false, false, str "boom", true⟩).2
      = .ok (str "j") (str "fixed_doc.pdf")
    ∧ statusWrites (process_pdf_async
        (aCfgOf ⟨str "/u", str "j", str "doc.pdf", str "all", [], str "600",
          false, false, false, false⟩)
        ⟨fun p => p = str "/u/j_fixed.pdf", false, false, 0, [],
          false, false, false, false, str "boom", true⟩)
      = [JStat.processing, JStat.failed] := by
  decide

/-- C10 amended: in exception-free runs, and provided the mandatory step (if
it exits 0) produces its `-FIXED` convention output — the case where the two
handlers' differing fallback output paths are never consulted — the legacy
synchronous handler and the asynchronous worker invoke the same five tools,
in the same order, with the same argument lists (hence on the same chain of
current artifacts derived by the same suffix conventions), perform the same
final move to the same final artifact, and succeed or fail together. -/
theorem sync_async_agree (sc : SCfg) (o : Orc) (hnr : NoRaise o)
    (hAuto : o.fixRc = 0 → o.ex (fixedName (cur1val (aCfgOf sc) o)) = true) :
    toolCalls (sync_run sc o).1 = toolCalls (process_pdf_async (aCfgOf sc) o)
    ∧ movesOf (sync_run sc o).1 = movesOf (process_pdf_async (aCfgOf sc) o)
    ∧ ((sync_run sc o).2 = .ok sc.unique_id (str "fixed_" ++ sc.filename)
       ↔ statusWrites (process_pdf_async (aCfgOf sc) o)
           = [JStat.processing, JStat.completed]) := by
  by_cases hrc : o.fixRc = 0
  · have hA := hAuto hrc
    have hsync := syncBody_success sc o hnr hrc hA
    have hasync := asyncBody_success (aCfgOf sc) o hnr hrc (Or.inl hA)
    have hbph : bodyPlusHandler (aCfgOf sc) o
        = s0evs ++ unlockEvs (aCfgOf sc) ++ step2OkEvs (aCfgOf sc) o (cur1val (aCfgOf sc) o)
          ++ step3Evs (aCfgOf sc) o (cur2val (aCfgOf sc) o)
          ++ step4Evs (aCfgOf sc) o (cur3val (aCfgOf sc) o)
          ++ step5Evs (aCfgOf sc) o (cur4val (aCfgOf sc) o)
          ++ finishEvs (aCfgOf sc) (cur5val (aCfgOf sc) o) := by
      rw [bodyPlusHandler, hasync]
      simp [handlerEvs]
    refine ⟨?_, ?_, ?_⟩
    · rw [sync_run, hsync, process_pdf_async, hbph]
      simp only [toolCalls_append, toolCalls_ite, toolCalls, List.filterMap_append,
        List.filterMap_cons, List.filterMap_nil, s0evs, unlockEvs, syncUnlockEvs,
        step2OkEvs, step3Evs, step4Evs, step5Evs, finishEvs,
        syncStep3Evs, syncStep4Evs, syncStep5Evs, fixCmdArgs, syncFixCmdArgs,
        fixPagesArg, aCfgOf, apply_ite (List.filterMap fun e => match e with
          | Ev.runStep n a => some (n, a) | _ => none)]
      simp
    · rw [sync_run, hsync, process_pdf_async, hbph]
      simp only [movesOf_append, movesOf_ite, movesOf, List.filterMap_append,
        List.filterMap_cons, List.filterMap_nil, s0evs, unlockEvs, syncUnlockEvs,
        step2OkEvs, step3Evs, step4Evs, step5Evs, finishEvs,
        syncStep3Evs, syncStep4Evs, syncStep5Evs, aCfgOf,
        apply_ite (List.filterMap fun e => match e with
          | Ev.moveFile a b => some (a, b) | _ => none)]
      simp [SCfg.final_path]
    · rw [sync_run, hsync]
      constructor
      · intro _
        rw [process_pdf_async, hbph]
        rw [statusWrites_append, statusWrites_ite]
        simp only [statusWrites_append, statusWrites_s0evs, statusWrites_unlockEvs,
          statusWrites_step2OkEvs, statusWrites_step3Evs, statusWrites_step4Evs,
          statusWrites_step5Evs, statusWrites_finishEvs]
        simp [statusWrites]
      · intro _
        rfl
  · have hsync := syncBody_failrc sc o hnr hrc
    have hasync := asyncBody_mandatory_fail (aCfgOf sc) o hnr.1 hnr.2.1 (Or.inl hrc)
    have hbph : bodyPlusHandler (aCfgOf sc) o
        = s0evs ++ unlockEvs (aCfgOf sc)
          ++ step2FailEvs (aCfgOf sc) o (cur1val (aCfgOf sc) o) := by
      rw [bodyPlusHandler, hasync]
      simp [handlerEvs]
    refine ⟨?_, ?_, ?_⟩
    · rw [sync_run, hsync, process_pdf_async, hbph]
      simp only [toolCalls_append, toolCalls_ite, toolCalls, List.filterMap_append,
        List.filterMap_cons, List.filterMap_nil, s0evs, unlockEvs, syncUnlockEvs,
        step2FailEvs, fixCmdArgs, syncFixCmdArgs, fixPagesArg, aCfgOf,
        apply_ite (List.filterMap fun e => match e with
          | Ev.runStep n a => some (n, a) | _ => none)]
      simp
    · rw [sync_run, hsync, process_pdf_async, hbph]
      simp only [movesOf_append, movesOf_ite, movesOf, List.filterMap_append,
        List.filterMap_cons, List.filterMap_nil, s0evs, unlockEvs, syncUnlockEvs,
        step2FailEvs, aCfgOf,
        apply_ite (List.filterMap fun e => match e with
          | Ev.moveFile a b => some (a, b) | _ => none)]
      simp
    · rw [sync_run, hsync]
      constructor
      · intro hc
        exact absurd hc (by simp)
      · intro hc
        exfalso
        rw [process_pdf_async, hbph] at hc
        rw [statusWrites_append, statusWrites_ite] at hc
        simp only [statusWrites_append, statusWrites_s0evs, statusWrites_unlockEvs] at hc
        rw [step2FailEvs] at hc
        by_cases hml : o.fixRc ≠ 0 ∧ (aCfgOf sc).email ≠ []
        · simp [hml, statusWrites, statusWrites_append] at hc
        · simp [hml, statusWrites, statusWrites_append] at hc

theorem sync_async_agree_witness :
    NoRaise ⟨fun p => p = str "/u/j_doc-FIXED.pdf", false, false, 0, [],
        false, false, false, false, str "boom", true⟩
    ∧ ((0 : Int) = 0 →
        (fun (p : Pstr) => (p = str "/u/j_doc-FIXED.pdf" : Bool))
          (fixedName (cur1val
            (aCfgOf ⟨str "/u", str "j", str "doc.pdf", str "all", [], str "600",
              false, false, false, false⟩)
            ⟨fun p => p = str "/u/j_doc-FIXED.pdf", false, false, 0, [],
              false, false, false, false, str "boom", true⟩)) = true)
    ∧ (toolCalls (sync_run
          ⟨str "/u", str "j", str "doc.pdf", str "all", [], str "600",
            false, false, false, false⟩
          ⟨fun p => p = str "/u/j_doc-FIXED.pdf", false, false, 0, [],
            false, false, false, false, str "boom", true⟩).1
        = toolCalls (process_pdf_async
            (aCfgOf ⟨str "/u", str "j", str "doc.pdf", str "all", [], str "600",
              false, false, false, false⟩)
            ⟨fun p => p = str "/u/j_doc-FIXED.pdf", false, false, 0, [],
              false, false, false, false, str "boom", true⟩)
       ∧ movesOf (sync_run
          ⟨str "/u", str "j", str "doc.pdf", str "all", [], str "600",
            false, false, false, false⟩
          ⟨fun p => p = str "/u/j_doc-FIXED.pdf", false, false, 0, [],
            false, false, false, false, str "boom", true⟩).1
        = movesOf (process_pdf_async
            (aCfgOf ⟨str "/u", str "j", str "doc.pdf", str "all", [], str "600",
              false, false, false, false⟩)
            ⟨fun p => p = str "/u/j_doc-FIXED.pdf", false, false, 0, [],
              false, false, false, false, str "boom", true⟩)
       ∧ ((sync_run
          ⟨str "/u", str "j", str "doc.pdf", str "all", [], str "600",
            false, false, false, false⟩
          ⟨fun p => p = str "/u/j_doc-FIXED.pdf", false, false, 0, [],
            false, false, false, false, str "boom", true⟩).2
            = .ok (str "j") (str "fixed_" ++ str "doc.pdf")
          ↔ statusWrites (process_pdf_async
              (aCfgOf ⟨str "/u", str "j", str "doc.pdf", str "all", [], str "600",
                false, false, false, false⟩)
              ⟨fun p => p = str "/u/j_doc-FIXED.pdf", false, false, 0, [],
                false, false, false, false, str "boom", true⟩)
              = [JStat.processing, JStat.completed])) :=
  ⟨⟨rfl, rfl, rfl, rfl, rfl, rfl⟩, by decide,
   sync_async_agree
     ⟨str "/u", str "j", str "doc.pdf", str "all", [], str "600",
       false, false, false, false⟩
     ⟨fun p => p = str "/u/j_doc-FIXED.pdf", false, false, 0, [],
       false, false, false, false, str "boom", true⟩
     ⟨rfl, rfl, rfl, rfl, rfl, rfl⟩ (by decide)⟩

/-- C5 counterexample: the input artifact can be deleted mid-pipeline, on a
reachable run. `allowed_file` and the `.pdf`-rename check are
case-insensitive, so an upload named `DOC.PDF` is accepted and stored
unchanged, and its input path contains no lowercase `".pdf"`. Every
`current_file.replace('.pdf', ...)` is then a no-op, so an enabled optional
step's expected output path equals the current file itself — which exists —
and the step's unguarded `os.remove(current_file)` (line 226) deletes the
originally submitted input in the middle of the pipeline. The subsequent
move of the now-deleted file raises, the run fails, and the `finally` block
removes nothing: the removal happened mid-pipeline, not on the terminal
path. -/
theorem input_removed_mid_pipeline :
    allowed_file (str "DOC.PDF") = true
    ∧ endsPdfLower (str "DOC.PDF") = true
    ∧ (str "/tmp/pdf-uploads/j1_DOC.PDF")
        ∈ rmPaths (bodyPlusHandler
            ⟨str "/tmp/pdf-uploads/j1_DOC.PDF", str "/tmp/pdf-uploads/j1_fixed_DOC.PDF",
              [], str "all", [], str "600", true, false, false, false⟩
            ⟨fun _ => true, false, false, 0, [], false, false, false, true,
              str "No such file or directory", true⟩)
    ∧ process_pdf_async
        ⟨str "/tmp/pdf-uploads/j1_DOC.PDF", str "/tmp/pdf-uploads/j1_fixed_DOC.PDF",
          [], str "all", [], str "600", true, false, false, false⟩
        ⟨fun _ => true, false, false, 0, [], false, false, false, true,
          str "No such file or directory", true⟩
      = bodyPlusHandler
          ⟨str "/tmp/pdf-uploads/j1_DOC.PDF", str "/tmp/pdf-uploads/j1_fixed_DOC.PDF",
            [], str "all", [], str "600", true, false, false, false⟩
          ⟨fun _ => true, false, false, 0, [], false, false, false, true,
            str "No such file or directory", true⟩
    ∧ statusWrites (process_pdf_async
        ⟨str "/tmp/pdf-uploads/j1_DOC.PDF", str "/tmp/pdf-uploads/j1_fixed_DOC.PDF",
          [], str "all", [], str "600", true, false, false, false⟩
        ⟨fun _ => true, false, false, 0, [], false, false, false, true,
          str "No such file or directory", true⟩)
      = [JStat.processing, JStat.failed] := by
  decide
